import Mathlib

/-!
# RFID access database (`RFIDAccessControl/access_database.h`)

A shallow embedding of the `AccessDatabase` class: a bounded list of 4-byte card
UIDs kept in byte-addressable EEPROM, behind a sentinel byte and a count byte.

* `uint8_t` / `byte` values are `Byte = Fin 256`; they are promoted to `Nat`
  (`.val`) wherever the source promotes them to `int` and the value cannot be
  negative, and to `Int` where the source's `int` may be negative (`cardIndex`).
* A `byte*` argument is the function `Nat → Byte` giving the bytes it points to.
* Every member function takes the object state and returns the new state next
  to its C++ return value.
* `for` loops are recursive functions over the number of iterations left; they
  keep the loop guard of the source.
-/

/-- An 8-bit unsigned machine integer (`uint8_t`, `byte`). -/
abbrev Byte := Fin 256

/-- Conversion of an `int` value to `uint8_t`: reduction modulo `2^8`. -/
def toUint8 (x : Int) : Byte := ⟨(x % 256).toNat, by omega⟩

def EEPROM_SIZE : Nat := 1024
def EEPROM_INIT_ADDR : Nat := 0
def EEPROM_COUNT_ADDR : Nat := 1
def EEPROM_CARDS_START : Nat := 2
def MAX_CARDS : Nat := 20
def UID_SIZE : Nat := 4

def CARD_ADDED : Byte := 1
def CARD_REMOVED : Byte := 2
def CARD_EXISTS : Byte := 3
def DATABASE_FULL : Byte := 4
def DATABASE_ERROR : Byte := 5

/-- Modelled from the spec: the byte storage backend (the platform's global
`EEPROM` object, declared in `<EEPROM.h>` and not part of the repository), as
the contract of section 4.2 describes it. `data` is the write buffer that
`read` sees, `flash` is the durable image that only `commit` changes, and
`accessed` records every address handed to `read` or `write`, newest first. -/
structure EEPROMClass where
  data : Nat → Byte
  flash : Nat → Byte
  accessed : List Nat

/-- Modelled from the spec: `begin(size)` reserves the region and is assumed to
succeed; it changes no byte. -/
def EEPROMClass.begin (e : EEPROMClass) (_size : Nat) : EEPROMClass := e

/-- Modelled from the spec: `readByte(address) -> byte`. -/
def EEPROMClass.read (e : EEPROMClass) (address : Nat) : Byte × EEPROMClass :=
  (e.data address, { e with accessed := address :: e.accessed })

/-- Modelled from the spec: `writeByte(address, value)`, buffered and not
durable until `commit`. -/
def EEPROMClass.write (e : EEPROMClass) (address : Nat) (value : Byte) : EEPROMClass :=
  { e with data := Function.update e.data address value, accessed := address :: e.accessed }

/-- Modelled from the spec: `commit()` flushes the buffered writes to the
durable media. -/
def EEPROMClass.commit (e : EEPROMClass) : EEPROMClass :=
  { e with flash := e.data }

/-- The state a member function of `AccessDatabase` runs in: the private
`initialized` member and the global `EEPROM` object. -/
structure AccessDatabase where
  initialized : Bool
  EEPROM : EEPROMClass

namespace AccessDatabase

/-- `void initializeEEPROM()`. -/
def initializeEEPROM (s : AccessDatabase) : AccessDatabase :=
  let r := s.EEPROM.read EEPROM_INIT_ADDR
  if r.1 ≠ 0xAA then
    let e1 := r.2.write EEPROM_INIT_ADDR 0xAA
    let e2 := e1.write EEPROM_COUNT_ADDR 0
    { initialized := true, EEPROM := e2.commit }
  else
    { initialized := true, EEPROM := r.2 }

/-- `void begin()`. -/
def begin (s : AccessDatabase) : AccessDatabase :=
  initializeEEPROM { s with EEPROM := s.EEPROM.begin EEPROM_SIZE }

/-- The lazy initialisation every member function starts with:
`if (!initialized) initializeEEPROM();`. -/
def ensureInitialized (s : AccessDatabase) : AccessDatabase :=
  if !s.initialized then initializeEEPROM s else s

/-- `uint8_t getCardCount()`. -/
def getCardCount (s : AccessDatabase) : Byte × AccessDatabase :=
  let s1 := ensureInitialized s
  let r := s1.EEPROM.read EEPROM_COUNT_ADDR
  (r.1, { s1 with EEPROM := r.2 })

/-- The byte comparison loop of `isCardAuthorized` and `removeCard`
(`for (uint8_t j = 0; j < UID_SIZE; j++)` with its `break`), from counter `j`;
the result is the final value of `match`. -/
def matchLoop (uid : Nat → Byte) (i : Nat) : Nat → Nat → EEPROMClass → Bool × EEPROMClass
  | 0, _, e => (true, e)
  | fuel + 1, j, e =>
    if j < UID_SIZE then
      let r := e.read (EEPROM_CARDS_START + (i * UID_SIZE) + j)
      if r.1 ≠ uid j then (false, r.2)
      else matchLoop uid i fuel (j + 1) r.2
    else (true, e)

/-- The record loop of `isCardAuthorized`
(`for (uint8_t i = 0; i < cardCount; i++)`), from counter `i`. The counter never
wraps: `i < cardCount <= 255` before each increment. -/
def scanLoop (uid : Nat → Byte) (cardCount : Byte) : Nat → Nat → EEPROMClass → Bool × EEPROMClass
  | 0, _, e => (false, e)
  | fuel + 1, i, e =>
    if i < cardCount.val then
      let m := matchLoop uid i (UID_SIZE - 0) 0 e
      if m.1 then (true, m.2)
      else scanLoop uid cardCount fuel (i + 1) m.2
    else (false, e)

/-- `bool isCardAuthorized(byte* uid)`. -/
def isCardAuthorized (s : AccessDatabase) (uid : Nat → Byte) : Bool × AccessDatabase :=
  let s1 := ensureInitialized s
  let c := getCardCount s1
  let r := scanLoop uid c.1 (c.1.val - 0) 0 c.2.EEPROM
  (r.1, { c.2 with EEPROM := r.2 })

/-- The write loop of `addCard` (`for (uint8_t j = 0; j < UID_SIZE; j++)`), from
counter `j`. -/
def writeUidLoop (uid : Nat → Byte) (cardCount : Byte) : Nat → Nat → EEPROMClass → EEPROMClass
  | 0, _, e => e
  | fuel + 1, j, e =>
    if j < UID_SIZE then
      writeUidLoop uid cardCount fuel (j + 1)
        (e.write (EEPROM_CARDS_START + (cardCount.val * UID_SIZE) + j) (uid j))
    else e

/-- `uint8_t addCard(byte* uid)`. -/
def addCard (s : AccessDatabase) (uid : Nat → Byte) : Byte × AccessDatabase :=
  let s1 := ensureInitialized s
  let a := isCardAuthorized s1 uid
  if a.1 then (CARD_EXISTS, a.2)
  else
    let c := getCardCount a.2
    if c.1.val ≥ MAX_CARDS then (DATABASE_FULL, c.2)
    else
      let e1 := writeUidLoop uid c.1 (UID_SIZE - 0) 0 c.2.EEPROM
      let e2 := e1.write EEPROM_COUNT_ADDR (toUint8 ((c.1.val : Int) + 1))
      (CARD_ADDED, { c.2 with EEPROM := e2.commit })

/-- The state in the middle of `addCard` on the path that adds the card: after
the loop that writes the UID bytes into slot `cardCount`, before the write of
the count byte. -/
def addCardAfterUidWrite (s : AccessDatabase) (uid : Nat → Byte) : AccessDatabase :=
  let s1 := ensureInitialized s
  let a := isCardAuthorized s1 uid
  let c := getCardCount a.2
  { c.2 with EEPROM := writeUidLoop uid c.1 (UID_SIZE - 0) 0 c.2.EEPROM }

/-- The search loop of `removeCard` (`for (uint8_t i = 0; i < cardCount; i++)`
with its `break`), from counter `i`; `cardIndex` is the `int` variable of the
source, `-1` on entry. -/
def findLoop (uid : Nat → Byte) (cardCount : Byte) :
    Nat → Nat → Int → EEPROMClass → Int × EEPROMClass
  | 0, _, cardIndex, e => (cardIndex, e)
  | fuel + 1, i, cardIndex, e =>
    if i < cardCount.val then
      let m := matchLoop uid i (UID_SIZE - 0) 0 e
      if m.1 then ((i : Int), m.2)
      else findLoop uid cardCount fuel (i + 1) cardIndex m.2
    else (cardIndex, e)

/-- The byte loop of the compaction in `removeCard`
(`for (uint8_t j = 0; j < UID_SIZE; j++)`), copying record `i + 1` onto record
`i`; the addresses are computed in `int` and are never negative, `i` being at
least `cardIndex >= 0`. -/
def copyLoop (i : Int) : Nat → Nat → EEPROMClass → EEPROMClass
  | 0, _, e => e
  | fuel + 1, j, e =>
    if j < UID_SIZE then
      let r := e.read ((EEPROM_CARDS_START : Int) + ((i + 1) * UID_SIZE) + j).toNat
      copyLoop i fuel (j + 1)
        (r.2.write ((EEPROM_CARDS_START : Int) + (i * UID_SIZE) + j).toNat r.1)
    else e

/-- The compaction loop of `removeCard`
(`for (int i = cardIndex; i < cardCount - 1; i++)`), from counter `i`. -/
def shiftLoop (cardCount : Byte) : Nat → Int → EEPROMClass → EEPROMClass
  | 0, _, e => e
  | fuel + 1, i, e =>
    if i < (cardCount.val : Int) - 1 then
      shiftLoop cardCount fuel (i + 1) (copyLoop i (UID_SIZE - 0) 0 e)
    else e

/-- `uint8_t removeCard(byte* uid)`. -/
def removeCard (s : AccessDatabase) (uid : Nat → Byte) : Byte × AccessDatabase :=
  let s1 := ensureInitialized s
  let c := getCardCount s1
  let f := findLoop uid c.1 (c.1.val - 0) 0 (-1) c.2.EEPROM
  if f.1 = -1 then (DATABASE_ERROR, { c.2 with EEPROM := f.2 })
  else
    let e1 := shiftLoop c.1 ((c.1.val : Int) - 1 - f.1).toNat f.1 f.2
    let e2 := e1.write EEPROM_COUNT_ADDR (toUint8 ((c.1.val : Int) - 1))
    (CARD_REMOVED, { c.2 with EEPROM := e2.commit })

/-- The read loop of `getCardByIndex` (`for (uint8_t j = 0; j < UID_SIZE; j++)`),
from counter `j`; `uid` is the caller's output buffer. -/
def readUidLoop (index : Byte) : Nat → Nat → (Nat → Byte) → EEPROMClass → (Nat → Byte) × EEPROMClass
  | 0, _, uid, e => (uid, e)
  | fuel + 1, j, uid, e =>
    if j < UID_SIZE then
      let r := e.read (EEPROM_CARDS_START + (index.val * UID_SIZE) + j)
      readUidLoop index fuel (j + 1) (Function.update uid j r.1) r.2
    else (uid, e)

/-- `bool getCardByIndex(uint8_t index, byte* uid)`: the return value, the
output buffer after the call, and the new state. -/
def getCardByIndex (s : AccessDatabase) (index : Byte) (uid : Nat → Byte) :
    Bool × (Nat → Byte) × AccessDatabase :=
  let s1 := ensureInitialized s
  let c := getCardCount s1
  if index.val ≥ c.1.val then (false, uid, c.2)
  else
    let r := readUidLoop index (UID_SIZE - 0) 0 uid c.2.EEPROM
    (true, r.1, { c.2 with EEPROM := r.2 })

/-- `void clearAllCards()`. -/
def clearAllCards (s : AccessDatabase) : AccessDatabase :=
  let s1 := ensureInitialized s
  let e1 := s1.EEPROM.write EEPROM_COUNT_ADDR 0
  { s1 with EEPROM := e1.commit }

end AccessDatabase

/-! ## The logical view of a memory image -/

/-- Record slot `i` of the memory image `m` holds exactly the `UID_SIZE` bytes
that `uid` points to. -/
def RecordIs (m : Nat → Byte) (i : Nat) (uid : Nat → Byte) : Prop :=
  ∀ j, j < UID_SIZE → m (EEPROM_CARDS_START + i * UID_SIZE + j) = uid j

instance (m : Nat → Byte) (i : Nat) (uid : Nat → Byte) : Decidable (RecordIs m i uid) := by
  unfold RecordIs; infer_instance

/-- Record slots `i` and `k` of the memory image `m` hold the same bytes. -/
def SameRecord (m : Nat → Byte) (i k : Nat) : Prop :=
  ∀ j, j < UID_SIZE →
    m (EEPROM_CARDS_START + i * UID_SIZE + j) = m (EEPROM_CARDS_START + k * UID_SIZE + j)

/-- The sentinel byte of the memory image `m` has the magic value. -/
def Sentinel (m : Nat → Byte) : Prop := m EEPROM_INIT_ADDR = 0xAA

/-- The count byte of the memory image `m`. -/
def countOf (m : Nat → Byte) : Nat := (m EEPROM_COUNT_ADDR).val

/-- No two record slots below the count byte hold the same bytes. -/
def Distinct (m : Nat → Byte) : Prop :=
  ∀ i, i < countOf m → ∀ k, k < countOf m → SameRecord m i k → i = k

instance (m : Nat → Byte) (i k : Nat) : Decidable (SameRecord m i k) := by
  unfold SameRecord; infer_instance

instance (m : Nat → Byte) : Decidable (Sentinel m) := by
  unfold Sentinel; infer_instance

instance (m : Nat → Byte) : Decidable (Distinct m) := by
  unfold Distinct; infer_instance

/-- Two UID buffers differ in one of their `UID_SIZE` bytes. -/
def UidNe (u v : Nat → Byte) : Prop := ∃ j, j < UID_SIZE ∧ u j ≠ v j

instance (u v : Nat → Byte) : Decidable (UidNe u v) := by
  unfold UidNe; infer_instance

/-- The logical state of a store: initialised after the lazy initialisation,
with a property `P` of its memory image. -/
def LogicalInv (P : (Nat → Byte) → Prop) (s : AccessDatabase) : Prop :=
  Sentinel s.ensureInitialized.EEPROM.data ∧ P s.ensureInitialized.EEPROM.data

/-- The backend `e2` has the access log of `e1` extended by addresses in
`[lo, hi)` only: everything read or written on the way from `e1` to `e2` lies
in that range. -/
def Touches (e1 e2 : EEPROMClass) (lo hi : Nat) : Prop :=
  ∃ l, e2.accessed = l ++ e1.accessed ∧ ∀ a, a ∈ l → lo ≤ a ∧ a < hi

/-! ## Sequences of calls -/

/-- One call of a public member function, with its arguments. -/
inductive Call where
  | begin
  | getCardCount
  | isCardAuthorized (uid : Nat → Byte)
  | addCard (uid : Nat → Byte)
  | removeCard (uid : Nat → Byte)
  | getCardByIndex (index : Byte) (uid : Nat → Byte)
  | clearAllCards

/-- The state after one call. -/
def Call.run : Call → AccessDatabase → AccessDatabase
  | .begin, s => s.begin
  | .getCardCount, s => (s.getCardCount).2
  | .isCardAuthorized uid, s => (s.isCardAuthorized uid).2
  | .addCard uid, s => (s.addCard uid).2
  | .removeCard uid, s => (s.removeCard uid).2
  | .getCardByIndex index uid, s => (s.getCardByIndex index uid).2.2
  | .clearAllCards, s => s.clearAllCards

/-- The state after a finite sequence of calls, first call first. -/
def runCalls : List Call → AccessDatabase → AccessDatabase
  | [], s => s
  | c :: cs, s => runCalls cs (c.run s)

/-- The return codes and the final state of calling `addCard` on each UID of a
list in order. -/
def addCards : List (Nat → Byte) → AccessDatabase → List Byte × AccessDatabase
  | [], s => ([], s)
  | uid :: uids, s =>
    let r := s.addCard uid
    let rs := addCards uids r.2
    (r.1 :: rs.1, rs.2)

/-! ## Sample inputs -/

/-- The UID buffer holding the four given bytes. -/
def uidOf (a b c d : Byte) : Nat → Byte :=
  fun j => if j = 0 then a else if j = 1 then b else if j = 2 then c else if j = 3 then d else 0

/-- The object with the flag unset over the memory image `m`, nothing pending. -/
def storeOf (m : Nat → Byte) : AccessDatabase :=
  { initialized := false, EEPROM := { data := m, flash := m, accessed := [] } }

/-- An initialised image with no record. -/
def emptyImage : Nat → Byte := fun a => if a = 0 then 0xAA else 0

/-- An erased image: every byte is `0xFF`, the count byte included. -/
def erasedImage : Nat → Byte := fun _ => 0xFF

/-- An initialised image with `MAX_CARDS` records, record `i` being `i, 0, 0, 0`. -/
def fullImage : Nat → Byte :=
  fun a => if a = 0 then 0xAA else if a = 1 then 20
    else if a % 4 = 2 then Fin.ofNat ((a - 2) / 4) else 0

/-- An initialised image with the three records `1 2 3 4`, `5 6 7 8`, `9 10 11 12`. -/
def threeImage : Nat → Byte :=
  fun a => if a = 0 then 0xAA else if a = 1 then 3
    else if a < 14 then Fin.ofNat (a - 1) else 0

/-- The store after `addCard` of `1 2 3 4`, then `AA BB CC DD`, then
`11 22 33 44`, on the empty store. -/
def abcStore : AccessDatabase :=
  ((((storeOf emptyImage).addCard (uidOf 1 2 3 4)).2.addCard
    (uidOf 0xAA 0xBB 0xCC 0xDD)).2.addCard (uidOf 0x11 0x22 0x33 0x44)).2

/-- A run over an erased memory: two inserts of one UID, a third insert, two
removals, a lookup and a re-open. -/
def sampleCalls : List Call :=
  [Call.addCard (uidOf 1 2 3 4), Call.addCard (uidOf 1 2 3 4), Call.addCard (uidOf 5 6 7 8),
    Call.removeCard (uidOf 1 2 3 4), Call.removeCard (uidOf 9 9 9 9),
    Call.getCardByIndex 0 (uidOf 0 0 0 0), Call.begin]

/-- A run over an erased memory that leaves three records: four inserts, one of
them of a UID already present, one successful and one failed removal, a
lookup, an enumeration and a re-open. -/
def uniquenessCalls : List Call :=
  [Call.addCard (uidOf 1 2 3 4), Call.addCard (uidOf 5 6 7 8), Call.addCard (uidOf 1 2 3 4),
    Call.addCard (uidOf 9 10 11 12), Call.addCard (uidOf 13 14 15 16),
    Call.removeCard (uidOf 5 6 7 8), Call.removeCard (uidOf 5 6 7 8),
    Call.isCardAuthorized (uidOf 9 10 11 12), Call.getCardByIndex 1 (uidOf 0 0 0 0),
    Call.begin]

/-- The `MAX_CARDS + 1` UIDs `n 0 0 1` for `n` from 0 to 20. -/
def twentyOneUids : List (Nat → Byte) :=
  (List.range 21).map (fun n => uidOf (Fin.ofNat n) 0 0 1)

/-! ## The backend primitives -/

section Backend

variable (e : EEPROMClass) (a : Nat) (v : Byte)

@[simp] theorem read_fst : (e.read a).1 = e.data a := rfl
@[simp] theorem read_data : (e.read a).2.data = e.data := rfl
@[simp] theorem read_flash : (e.read a).2.flash = e.flash := rfl
@[simp] theorem write_data : (e.write a v).data = Function.update e.data a v := rfl
@[simp] theorem write_flash : (e.write a v).flash = e.flash := rfl
@[simp] theorem commit_data : e.commit.data = e.data := rfl
@[simp] theorem commit_flash : e.commit.flash = e.data := rfl
@[simp] theorem begin_eq (n : Nat) : e.begin n = e := rfl

end Backend

/-! ## The loops -/

namespace AccessDatabase

theorem matchLoop_data (uid : Nat → Byte) (i : Nat) (fuel j : Nat) (e : EEPROMClass) :
    (matchLoop uid i fuel j e).2.data = e.data := by
  induction fuel generalizing j e with
  | zero => rfl
  | succ n ih =>
    simp only [matchLoop]
    split_ifs <;> simp [ih]

theorem matchLoop_flash (uid : Nat → Byte) (i : Nat) (fuel j : Nat) (e : EEPROMClass) :
    (matchLoop uid i fuel j e).2.flash = e.flash := by
  induction fuel generalizing j e with
  | zero => rfl
  | succ n ih =>
    simp only [matchLoop]
    split_ifs <;> simp [ih]

theorem matchLoop_true_iff (uid : Nat → Byte) (i : Nat) (fuel j : Nat) (e : EEPROMClass)
    (hf : UID_SIZE ≤ fuel + j) :
    (matchLoop uid i fuel j e).1 = true ↔
      ∀ j', j ≤ j' → j' < UID_SIZE →
        e.data (EEPROM_CARDS_START + i * UID_SIZE + j') = uid j' := by
  induction fuel generalizing j e with
  | zero =>
    simp only [matchLoop, true_iff]
    intro j' h1 h2; omega
  | succ n ih =>
    simp only [matchLoop]
    by_cases hj : j < UID_SIZE
    · by_cases hb : e.data (EEPROM_CARDS_START + i * UID_SIZE + j) = uid j
      · simp only [hj, if_true, read_fst, ne_eq, hb, not_true_eq_false, if_false]
        rw [ih (j + 1) _ (by omega)]
        simp only [read_data]
        constructor
        · intro h j' h1 h2
          rcases Nat.eq_or_lt_of_le h1 with h3 | h3
          · subst h3; exact hb
          · exact h j' h3 h2
        · intro h j' h1 h2
          exact h j' (by omega) h2
      · simp only [hj, if_true, read_fst, ne_eq, hb, not_false_eq_true]
        constructor
        · intro h; cases h
        · intro h; exact absurd (h j (le_refl _) hj) hb
    · simp only [hj, if_false, true_iff]
      intro j' h1 h2; omega

theorem matchLoop_iff (uid : Nat → Byte) (i : Nat) (e : EEPROMClass) :
    (matchLoop uid i (UID_SIZE - 0) 0 e).1 = true ↔ RecordIs e.data i uid := by
  rw [matchLoop_true_iff uid i _ 0 e (by simp)]
  unfold RecordIs
  constructor
  · intro h j hj; exact h j (Nat.zero_le _) hj
  · intro h j _ hj; exact h j hj

theorem scanLoop_data (uid : Nat → Byte) (cc : Byte) (fuel i : Nat) (e : EEPROMClass) :
    (scanLoop uid cc fuel i e).2.data = e.data := by
  induction fuel generalizing i e with
  | zero => rfl
  | succ n ih =>
    simp only [scanLoop]
    split_ifs <;> simp [ih, matchLoop_data]

theorem scanLoop_flash (uid : Nat → Byte) (cc : Byte) (fuel i : Nat) (e : EEPROMClass) :
    (scanLoop uid cc fuel i e).2.flash = e.flash := by
  induction fuel generalizing i e with
  | zero => rfl
  | succ n ih =>
    simp only [scanLoop]
    split_ifs <;> simp [ih, matchLoop_flash]

theorem scanLoop_true_iff (uid : Nat → Byte) (cc : Byte) (fuel i : Nat) (e : EEPROMClass)
    (hf : cc.val ≤ fuel + i) :
    (scanLoop uid cc fuel i e).1 = true ↔
      ∃ k, i ≤ k ∧ k < cc.val ∧ RecordIs e.data k uid := by
  induction fuel generalizing i e with
  | zero =>
    simp only [scanLoop]
    constructor
    · intro h; cases h
    · rintro ⟨k, h1, h2, -⟩; omega
  | succ n ih =>
    simp only [scanLoop]
    by_cases hi : i < cc.val
    · by_cases hm : (matchLoop uid i (UID_SIZE - 0) 0 e).1 = true
      · simp only [hi, if_true, hm, true_iff]
        exact ⟨i, le_refl _, hi, (matchLoop_iff uid i e).1 hm⟩
      · simp only [hi, if_true, hm, Bool.false_eq_true, if_false]
        rw [ih (i + 1) _ (by omega), matchLoop_data]
        have hm' : ¬ RecordIs e.data i uid := fun h => hm ((matchLoop_iff uid i e).2 h)
        constructor
        · rintro ⟨k, h1, h2, h3⟩; exact ⟨k, by omega, h2, h3⟩
        · rintro ⟨k, h1, h2, h3⟩
          rcases Nat.eq_or_lt_of_le h1 with h4 | h4
          · subst h4; exact absurd h3 hm'
          · exact ⟨k, h4, h2, h3⟩
    · simp only [hi, if_false]
      constructor
      · intro h; cases h
      · rintro ⟨k, h1, h2, -⟩; omega

theorem findLoop_data (uid : Nat → Byte) (cc : Byte) (fuel i : Nat) (ci : Int) (e : EEPROMClass) :
    (findLoop uid cc fuel i ci e).2.data = e.data := by
  induction fuel generalizing i e with
  | zero => rfl
  | succ n ih =>
    simp only [findLoop]
    split_ifs <;> simp [ih, matchLoop_data]

theorem findLoop_flash (uid : Nat → Byte) (cc : Byte) (fuel i : Nat) (ci : Int) (e : EEPROMClass) :
    (findLoop uid cc fuel i ci e).2.flash = e.flash := by
  induction fuel generalizing i e with
  | zero => rfl
  | succ n ih =>
    simp only [findLoop]
    split_ifs <;> simp [ih, matchLoop_flash]

/-- The search loop either leaves `cardIndex` at `-1` and no slot from `i` on
matches, or it stops at the first matching slot. -/
theorem findLoop_spec (uid : Nat → Byte) (cc : Byte) (fuel i : Nat) (e : EEPROMClass)
    (hf : cc.val ≤ fuel + i) :
    ((findLoop uid cc fuel i (-1) e).1 = -1 ∧
        ∀ k, i ≤ k → k < cc.val → ¬ RecordIs e.data k uid) ∨
      ∃ k : Nat, (findLoop uid cc fuel i (-1) e).1 = (k : Int) ∧ i ≤ k ∧ k < cc.val ∧
        RecordIs e.data k uid ∧ ∀ k', i ≤ k' → k' < k → ¬ RecordIs e.data k' uid := by
  induction fuel generalizing i e with
  | zero =>
    left
    refine ⟨rfl, ?_⟩
    intro k h1 h2; omega
  | succ n ih =>
    simp only [findLoop]
    by_cases hi : i < cc.val
    · by_cases hm : (matchLoop uid i (UID_SIZE - 0) 0 e).1 = true
      · right
        refine ⟨i, ?_, le_refl _, hi, (matchLoop_iff uid i e).1 hm, ?_⟩
        · simp only [hi, if_true, hm]
        · intro k' h1 h2; omega
      · have hm' : ¬ RecordIs e.data i uid := fun h => hm ((matchLoop_iff uid i e).2 h)
        simp only [hi, if_true, hm, Bool.false_eq_true, if_false]
        rcases ih (i + 1) (matchLoop uid i (UID_SIZE - 0) 0 e).2 (by omega) with h | h
        · left
          rw [matchLoop_data] at h
          refine ⟨h.1, ?_⟩
          intro k h1 h2
          rcases Nat.eq_or_lt_of_le h1 with h3 | h3
          · subst h3; exact hm'
          · exact h.2 k h3 h2
        · right
          rw [matchLoop_data] at h
          obtain ⟨k, h1, h2, h3, h4, h5⟩ := h
          refine ⟨k, h1, by omega, h3, h4, ?_⟩
          intro k' h6 h7
          rcases Nat.eq_or_lt_of_le h6 with h8 | h8
          · subst h8; exact hm'
          · exact h5 k' h8 h7
    · left
      simp only [hi, if_false]
      refine ⟨trivial, ?_⟩
      intro k h1 h2; omega

theorem writeUidLoop_flash (uid : Nat → Byte) (cc : Byte) (fuel j : Nat) (e : EEPROMClass) :
    (writeUidLoop uid cc fuel j e).flash = e.flash := by
  induction fuel generalizing j e with
  | zero => rfl
  | succ n ih =>
    simp only [writeUidLoop]
    split_ifs <;> simp [ih]

theorem writeUidLoop_data (uid : Nat → Byte) (cc : Byte) (fuel j : Nat) (e : EEPROMClass)
    (hf : UID_SIZE ≤ fuel + j) (a : Nat) :
    (writeUidLoop uid cc fuel j e).data a =
      if EEPROM_CARDS_START + cc.val * UID_SIZE + j ≤ a ∧
          a < EEPROM_CARDS_START + cc.val * UID_SIZE + UID_SIZE
      then uid (a - (EEPROM_CARDS_START + cc.val * UID_SIZE)) else e.data a := by
  induction fuel generalizing j e with
  | zero =>
    simp only [writeUidLoop]
    rw [if_neg]; omega
  | succ n ih =>
    simp only [writeUidLoop]
    by_cases hj : j < UID_SIZE
    · simp only [hj, if_true]
      rw [ih (j + 1) _ (by omega)]
      simp only [write_data]
      by_cases ha : a = EEPROM_CARDS_START + cc.val * UID_SIZE + j
      · subst ha
        rw [if_neg (by omega), if_pos (by omega)]
        simp
      · rw [Function.update_noteq ha]
        by_cases hr : EEPROM_CARDS_START + cc.val * UID_SIZE + (j + 1) ≤ a ∧
            a < EEPROM_CARDS_START + cc.val * UID_SIZE + UID_SIZE
        · rw [if_pos hr, if_pos (by omega)]
        · rw [if_neg hr, if_neg (by omega)]
    · simp only [hj, if_false]
      rw [if_neg]; omega

theorem copyLoop_flash (i : Int) (fuel j : Nat) (e : EEPROMClass) :
    (copyLoop i fuel j e).flash = e.flash := by
  induction fuel generalizing j e with
  | zero => rfl
  | succ n ih =>
    simp only [copyLoop]
    split_ifs <;> simp [ih]

theorem copyLoop_data (k : Nat) (fuel j : Nat) (e : EEPROMClass)
    (hf : UID_SIZE ≤ fuel + j) (a : Nat) :
    (copyLoop (k : Int) fuel j e).data a =
      if EEPROM_CARDS_START + k * UID_SIZE + j ≤ a ∧
          a < EEPROM_CARDS_START + k * UID_SIZE + UID_SIZE
      then e.data (a + UID_SIZE) else e.data a := by
  induction fuel generalizing j e with
  | zero =>
    simp only [copyLoop]
    rw [if_neg]; omega
  | succ n ih =>
    simp only [copyLoop]
    by_cases hj : j < UID_SIZE
    · simp only [hj, if_true]
      rw [ih (j + 1) _ (by omega)]
      have e1 : ((EEPROM_CARDS_START : Int) + ((k : Int) + 1) * UID_SIZE + j).toNat
          = EEPROM_CARDS_START + k * UID_SIZE + j + UID_SIZE := by
        simp only [UID_SIZE, EEPROM_CARDS_START]; omega
      have e2 : ((EEPROM_CARDS_START : Int) + (k : Int) * UID_SIZE + j).toNat
          = EEPROM_CARDS_START + k * UID_SIZE + j := by
        simp only [UID_SIZE, EEPROM_CARDS_START]; omega
      simp only [write_data, read_data, read_fst, e1, e2]
      by_cases ha : a = EEPROM_CARDS_START + k * UID_SIZE + j
      · subst ha
        rw [if_neg (by omega), if_pos (by omega)]
        simp
      · rw [Function.update_noteq ha]
        by_cases hr : EEPROM_CARDS_START + k * UID_SIZE + (j + 1) ≤ a ∧
            a < EEPROM_CARDS_START + k * UID_SIZE + UID_SIZE
        · rw [if_pos hr, if_pos (by omega)]
          rw [Function.update_noteq (by omega)]
        · rw [if_neg hr, if_neg (by omega)]
    · simp only [hj, if_false]
      rw [if_neg]; omega

theorem shiftLoop_flash (cc : Byte) (fuel : Nat) (i : Int) (e : EEPROMClass) :
    (shiftLoop cc fuel i e).flash = e.flash := by
  induction fuel generalizing i e with
  | zero => rfl
  | succ n ih =>
    simp only [shiftLoop]
    split_ifs <;> simp [ih, copyLoop_flash]

/-- The compaction loop started at slot `k` moves every byte of the slots
`k + 1 .. cardCount - 1` down by one slot and leaves all other bytes alone. -/
theorem shiftLoop_data (cc : Byte) (fuel k : Nat) (e : EEPROMClass)
    (hf : cc.val ≤ fuel + k + 1) (a : Nat) :
    (shiftLoop cc fuel (k : Int) e).data a =
      if EEPROM_CARDS_START + k * UID_SIZE ≤ a ∧
          a + UID_SIZE < EEPROM_CARDS_START + cc.val * UID_SIZE
      then e.data (a + UID_SIZE) else e.data a := by
  induction fuel generalizing k e with
  | zero =>
    simp only [shiftLoop]
    rw [if_neg]
    simp only [UID_SIZE, EEPROM_CARDS_START]; omega
  | succ n ih =>
    simp only [shiftLoop]
    by_cases hk : (k : Int) < (cc.val : Int) - 1
    · have hk' : k + 1 < cc.val := by omega
      simp only [hk, if_true]
      have hc : ((k : Int) + 1) = ((k + 1 : Nat) : Int) := by push_cast; rfl
      rw [hc, ih (k + 1) _ (by omega)]
      rw [copyLoop_data k _ 0 e (by simp) a, copyLoop_data k _ 0 e (by simp) (a + UID_SIZE)]
      simp only [UID_SIZE, EEPROM_CARDS_START] at *
      split_ifs <;> first | rfl | omega
    · have hk' : cc.val ≤ k + 1 := by omega
      simp only [hk, if_false]
      rw [if_neg]
      simp only [UID_SIZE, EEPROM_CARDS_START]; omega

theorem readUidLoop_data (index : Byte) (fuel j : Nat) (uid : Nat → Byte) (e : EEPROMClass) :
    (readUidLoop index fuel j uid e).2.data = e.data := by
  induction fuel generalizing j uid e with
  | zero => rfl
  | succ n ih =>
    simp only [readUidLoop]
    split_ifs <;> simp [ih]

theorem readUidLoop_flash (index : Byte) (fuel j : Nat) (uid : Nat → Byte) (e : EEPROMClass) :
    (readUidLoop index fuel j uid e).2.flash = e.flash := by
  induction fuel generalizing j uid e with
  | zero => rfl
  | succ n ih =>
    simp only [readUidLoop]
    split_ifs <;> simp [ih]

theorem readUidLoop_out (index : Byte) (fuel j : Nat) (uid : Nat → Byte) (e : EEPROMClass)
    (hf : UID_SIZE ≤ fuel + j) (x : Nat) :
    (readUidLoop index fuel j uid e).1 x =
      if j ≤ x ∧ x < UID_SIZE then e.data (EEPROM_CARDS_START + index.val * UID_SIZE + x)
      else uid x := by
  induction fuel generalizing j uid e with
  | zero =>
    simp only [readUidLoop]
    rw [if_neg]; omega
  | succ n ih =>
    simp only [readUidLoop]
    by_cases hj : j < UID_SIZE
    · simp only [hj, if_true]
      rw [ih (j + 1) _ _ (by omega)]
      simp only [read_data, read_fst]
      by_cases hx : x = j
      · subst hx
        rw [if_neg (by omega), if_pos (by omega)]
        simp
      · rw [Function.update_noteq hx]
        by_cases hr : j + 1 ≤ x ∧ x < UID_SIZE
        · rw [if_pos hr, if_pos (by omega)]
        · rw [if_neg hr, if_neg (by omega)]
    · simp only [hj, if_false]
      rw [if_neg]; omega

/-! ## Lazy initialisation -/

theorem initializeEEPROM_initialized (s : AccessDatabase) :
    (initializeEEPROM s).initialized = true := by
  simp only [initializeEEPROM]
  split_ifs <;> rfl

theorem ensureInitialized_initialized (s : AccessDatabase) :
    (ensureInitialized s).initialized = true := by
  unfold ensureInitialized
  cases h : s.initialized
  · simpa using initializeEEPROM_initialized s
  · simpa using h

theorem ensureInitialized_of_initialized (s : AccessDatabase) (h : s.initialized = true) :
    ensureInitialized s = s := by
  simp [ensureInitialized, h]

@[simp] theorem ensureInitialized_idem (s : AccessDatabase) :
    ensureInitialized (ensureInitialized s) = ensureInitialized s :=
  ensureInitialized_of_initialized _ (ensureInitialized_initialized s)

theorem initializeEEPROM_data_of_sentinel (s : AccessDatabase) (h : Sentinel s.EEPROM.data) :
    (initializeEEPROM s).EEPROM.data = s.EEPROM.data := by
  unfold Sentinel at h
  simp [initializeEEPROM, h]

theorem initializeEEPROM_flash_of_sentinel (s : AccessDatabase) (h : Sentinel s.EEPROM.data) :
    (initializeEEPROM s).EEPROM.flash = s.EEPROM.flash := by
  unfold Sentinel at h
  simp [initializeEEPROM, h]

theorem initializeEEPROM_data_of_not_sentinel (s : AccessDatabase)
    (h : ¬ Sentinel s.EEPROM.data) :
    (initializeEEPROM s).EEPROM.data =
      Function.update (Function.update s.EEPROM.data EEPROM_INIT_ADDR 0xAA)
        EEPROM_COUNT_ADDR 0 := by
  unfold Sentinel at h
  simp [initializeEEPROM, h]

theorem initializeEEPROM_sentinel (s : AccessDatabase) :
    Sentinel (initializeEEPROM s).EEPROM.data := by
  by_cases h : Sentinel s.EEPROM.data
  · rw [initializeEEPROM_data_of_sentinel s h]; exact h
  · rw [initializeEEPROM_data_of_not_sentinel s h]
    simp [Sentinel, EEPROM_INIT_ADDR, EEPROM_COUNT_ADDR, Function.update]

theorem ensureInitialized_data_of_sentinel (s : AccessDatabase) (h : Sentinel s.EEPROM.data) :
    (ensureInitialized s).EEPROM.data = s.EEPROM.data := by
  unfold ensureInitialized
  split_ifs
  · exact initializeEEPROM_data_of_sentinel s h
  · rfl

theorem ensureInitialized_flash_of_sentinel (s : AccessDatabase) (h : Sentinel s.EEPROM.data) :
    (ensureInitialized s).EEPROM.flash = s.EEPROM.flash := by
  unfold ensureInitialized
  split_ifs
  · exact initializeEEPROM_flash_of_sentinel s h
  · rfl

/-! ## The member functions, in terms of the memory image after lazy
initialisation -/

theorem getCardCount_fst (s : AccessDatabase) :
    (getCardCount s).1 = (ensureInitialized s).EEPROM.data EEPROM_COUNT_ADDR := rfl

theorem getCardCount_data (s : AccessDatabase) :
    (getCardCount s).2.EEPROM.data = (ensureInitialized s).EEPROM.data := rfl

theorem getCardCount_flash (s : AccessDatabase) :
    (getCardCount s).2.EEPROM.flash = (ensureInitialized s).EEPROM.flash := rfl

theorem getCardCount_initialized (s : AccessDatabase) :
    (getCardCount s).2.initialized = true := ensureInitialized_initialized s

theorem getCardCount_ensure (s : AccessDatabase) :
    getCardCount (ensureInitialized s) = getCardCount s := by
  simp [getCardCount]

theorem isCardAuthorized_ensure (s : AccessDatabase) (uid : Nat → Byte) :
    isCardAuthorized (ensureInitialized s) uid = isCardAuthorized s uid := by
  simp [isCardAuthorized]

theorem isCardAuthorized_data (s : AccessDatabase) (uid : Nat → Byte) :
    (isCardAuthorized s uid).2.EEPROM.data = (ensureInitialized s).EEPROM.data := by
  simp [isCardAuthorized, scanLoop_data, getCardCount_data]

theorem isCardAuthorized_flash (s : AccessDatabase) (uid : Nat → Byte) :
    (isCardAuthorized s uid).2.EEPROM.flash = (ensureInitialized s).EEPROM.flash := by
  simp [isCardAuthorized, scanLoop_flash, getCardCount_flash]

theorem isCardAuthorized_initialized (s : AccessDatabase) (uid : Nat → Byte) :
    (isCardAuthorized s uid).2.initialized = true := by
  simp [isCardAuthorized, getCardCount_initialized]

theorem isCardAuthorized_iff (s : AccessDatabase) (uid : Nat → Byte) :
    (isCardAuthorized s uid).1 = true ↔
      ∃ k, k < countOf (ensureInitialized s).EEPROM.data ∧
        RecordIs (ensureInitialized s).EEPROM.data k uid := by
  simp only [isCardAuthorized, ensureInitialized_idem]
  rw [scanLoop_true_iff _ _ _ _ _ (by simp)]
  simp only [getCardCount_fst, getCardCount_data, countOf, Nat.zero_le, true_and,
    ensureInitialized_idem]

theorem ensureInitialized_isCardAuthorized (s : AccessDatabase) (uid : Nat → Byte) :
    ensureInitialized (isCardAuthorized s uid).2 = (isCardAuthorized s uid).2 :=
  ensureInitialized_of_initialized _ (isCardAuthorized_initialized s uid)

theorem ensureInitialized_getCardCount (s : AccessDatabase) :
    ensureInitialized (getCardCount s).2 = (getCardCount s).2 :=
  ensureInitialized_of_initialized _ (getCardCount_initialized s)

theorem addCard_of_authorized (s : AccessDatabase) (uid : Nat → Byte)
    (h : (isCardAuthorized s uid).1 = true) :
    addCard s uid = (CARD_EXISTS, (isCardAuthorized s uid).2) := by
  simp [addCard, isCardAuthorized_ensure, h]

theorem addCard_of_full (s : AccessDatabase) (uid : Nat → Byte)
    (h : (isCardAuthorized s uid).1 = false)
    (hc : MAX_CARDS ≤ countOf (ensureInitialized s).EEPROM.data) :
    addCard s uid = (DATABASE_FULL, (getCardCount (isCardAuthorized s uid).2).2) := by
  have hc' : MAX_CARDS ≤ ((getCardCount (isCardAuthorized s uid).2).1).val := by
    rw [getCardCount_fst, ensureInitialized_isCardAuthorized, isCardAuthorized_data]
    exact hc
  simp [addCard, isCardAuthorized_ensure, h, hc']

theorem addCard_added_fst (s : AccessDatabase) (uid : Nat → Byte)
    (h : (isCardAuthorized s uid).1 = false)
    (hc : countOf (ensureInitialized s).EEPROM.data < MAX_CARDS) :
    (addCard s uid).1 = CARD_ADDED := by
  have hc' : ¬ MAX_CARDS ≤ ((getCardCount (isCardAuthorized s uid).2).1).val := by
    rw [getCardCount_fst, ensureInitialized_isCardAuthorized, isCardAuthorized_data]
    exact Nat.not_le.2 hc
  simp [addCard, isCardAuthorized_ensure, h, hc']

theorem addCard_added_data (s : AccessDatabase) (uid : Nat → Byte)
    (h : (isCardAuthorized s uid).1 = false)
    (hc : countOf (ensureInitialized s).EEPROM.data < MAX_CARDS) (a : Nat) :
    (addCard s uid).2.EEPROM.data a =
      if a = EEPROM_COUNT_ADDR then
        toUint8 ((countOf (ensureInitialized s).EEPROM.data : Int) + 1)
      else if EEPROM_CARDS_START + countOf (ensureInitialized s).EEPROM.data * UID_SIZE ≤ a ∧
          a < EEPROM_CARDS_START + countOf (ensureInitialized s).EEPROM.data * UID_SIZE
            + UID_SIZE
      then uid (a - (EEPROM_CARDS_START + countOf (ensureInitialized s).EEPROM.data * UID_SIZE))
      else (ensureInitialized s).EEPROM.data a := by
  have e1 : (getCardCount (isCardAuthorized s uid).2).1
      = (ensureInitialized s).EEPROM.data EEPROM_COUNT_ADDR := by
    rw [getCardCount_fst, ensureInitialized_isCardAuthorized, isCardAuthorized_data]
  have e2 : (getCardCount (isCardAuthorized s uid).2).2.EEPROM.data
      = (ensureInitialized s).EEPROM.data := by
    rw [getCardCount_data, ensureInitialized_isCardAuthorized, isCardAuthorized_data]
  have hc' : ¬ MAX_CARDS ≤ ((ensureInitialized s).EEPROM.data EEPROM_COUNT_ADDR).val :=
    Nat.not_le.2 hc
  simp only [addCard, isCardAuthorized_ensure, h, Bool.false_eq_true, if_false, e1, ge_iff_le,
    hc', commit_data, write_data]
  by_cases ha : a = EEPROM_COUNT_ADDR
  · subst ha
    simp [countOf]
  · rw [Function.update_noteq ha, if_neg ha, writeUidLoop_data _ _ _ 0 _ (by simp), e2]
    simp only [countOf, Nat.add_zero]

theorem addCard_added_flash (s : AccessDatabase) (uid : Nat → Byte)
    (h : (isCardAuthorized s uid).1 = false)
    (hc : countOf (ensureInitialized s).EEPROM.data < MAX_CARDS) :
    (addCard s uid).2.EEPROM.flash = (addCard s uid).2.EEPROM.data := by
  have hc' : ¬ MAX_CARDS ≤ ((getCardCount (isCardAuthorized s uid).2).1).val := by
    rw [getCardCount_fst, ensureInitialized_isCardAuthorized, isCardAuthorized_data]
    exact Nat.not_le.2 hc
  simp [addCard, isCardAuthorized_ensure, h, hc']

theorem addCard_initialized (s : AccessDatabase) (uid : Nat → Byte) :
    (addCard s uid).2.initialized = true := by
  simp only [addCard, isCardAuthorized_ensure]
  split_ifs
  · exact isCardAuthorized_initialized s uid
  · exact getCardCount_initialized _
  · exact getCardCount_initialized _

theorem removeCard_initialized (s : AccessDatabase) (uid : Nat → Byte) :
    (removeCard s uid).2.initialized = true := by
  simp only [removeCard, getCardCount_ensure]
  split_ifs
  · exact getCardCount_initialized _
  · exact getCardCount_initialized _

theorem removeCard_not_found (s : AccessDatabase) (uid : Nat → Byte)
    (h : ∀ k, k < countOf (ensureInitialized s).EEPROM.data →
      ¬ RecordIs (ensureInitialized s).EEPROM.data k uid) :
    (removeCard s uid).1 = DATABASE_ERROR ∧
      (removeCard s uid).2.EEPROM.data = (ensureInitialized s).EEPROM.data ∧
      (removeCard s uid).2.EEPROM.flash = (ensureInitialized s).EEPROM.flash := by
  have hs := findLoop_spec uid (getCardCount s).1 ((getCardCount s).1.val - 0) 0
    (getCardCount s).2.EEPROM (by simp)
  rw [getCardCount_data, getCardCount_fst] at hs
  rcases hs with ⟨h1, -⟩ | ⟨k, -, -, h2, h3, -⟩
  · rw [← getCardCount_fst] at h1
    simp only [removeCard, getCardCount_ensure, h1, if_true, findLoop_data, findLoop_flash,
      getCardCount_data, getCardCount_flash, and_self]
  · exact absurd h3 (h k h2)

theorem removeCard_found (s : AccessDatabase) (uid : Nat → Byte) (k : Nat)
    (hk : k < countOf (ensureInitialized s).EEPROM.data)
    (hr : RecordIs (ensureInitialized s).EEPROM.data k uid)
    (hmin : ∀ k', k' < k → ¬ RecordIs (ensureInitialized s).EEPROM.data k' uid) :
    (removeCard s uid).1 = CARD_REMOVED ∧
      (∀ a, (removeCard s uid).2.EEPROM.data a =
        if a = EEPROM_COUNT_ADDR then
          toUint8 ((countOf (ensureInitialized s).EEPROM.data : Int) - 1)
        else if EEPROM_CARDS_START + k * UID_SIZE ≤ a ∧
            a + UID_SIZE <
              EEPROM_CARDS_START + countOf (ensureInitialized s).EEPROM.data * UID_SIZE
        then (ensureInitialized s).EEPROM.data (a + UID_SIZE)
        else (ensureInitialized s).EEPROM.data a) ∧
      (removeCard s uid).2.EEPROM.flash = (removeCard s uid).2.EEPROM.data := by
  have hs := findLoop_spec uid (getCardCount s).1 ((getCardCount s).1.val - 0) 0
    (getCardCount s).2.EEPROM (by simp)
  rw [getCardCount_data, getCardCount_fst] at hs
  rcases hs with ⟨-, h2⟩ | ⟨k', h1, -, h2, h3, h4⟩
  · exact absurd hr (h2 k (Nat.zero_le _) hk)
  · have hkk : k' = k := by
      rcases Nat.lt_trichotomy k' k with h5 | h5 | h5
      · exact absurd h3 (hmin k' h5)
      · exact h5
      · exact absurd hr (h4 k (Nat.zero_le _) h5)
    subst hkk
    rw [← getCardCount_fst] at h1
    have hne : ((k' : Nat) : Int) ≠ -1 := by omega
    simp only [removeCard, getCardCount_ensure, h1, hne, if_false, commit_data, write_data,
      commit_flash, and_true, true_and]
    intro a
    by_cases ha : a = EEPROM_COUNT_ADDR
    · subst ha
      simp [countOf, getCardCount_fst]
    · rw [Function.update_noteq ha, if_neg ha]
      rw [shiftLoop_data _ _ _ _ (by
        have : k' < ((getCardCount s).1).val := by rw [getCardCount_fst]; exact hk
        omega) a]
      simp only [findLoop_data, getCardCount_data, getCardCount_fst, countOf]

theorem getCardByIndex_of_ge (s : AccessDatabase) (index : Byte) (uid : Nat → Byte)
    (h : countOf (ensureInitialized s).EEPROM.data ≤ index.val) :
    getCardByIndex s index uid = (false, uid, (getCardCount s).2) := by
  have h' : ((getCardCount s).1).val ≤ index.val := by rw [getCardCount_fst]; exact h
  simp [getCardByIndex, getCardCount_ensure, h']

theorem getCardByIndex_of_lt (s : AccessDatabase) (index : Byte) (uid : Nat → Byte)
    (h : index.val < countOf (ensureInitialized s).EEPROM.data) :
    (getCardByIndex s index uid).1 = true ∧
      (∀ x, (getCardByIndex s index uid).2.1 x =
        if x < UID_SIZE then
          (ensureInitialized s).EEPROM.data (EEPROM_CARDS_START + index.val * UID_SIZE + x)
        else uid x) := by
  have h' : ¬ ((getCardCount s).1).val ≤ index.val := by
    rw [getCardCount_fst]; exact Nat.not_le.2 h
  simp only [getCardByIndex, getCardCount_ensure, ge_iff_le, h', if_false, true_and]
  intro x
  rw [readUidLoop_out _ _ 0 _ _ (by simp) x, getCardCount_data]
  simp only [Nat.zero_le, true_and]

theorem getCardByIndex_data (s : AccessDatabase) (index : Byte) (uid : Nat → Byte) :
    (getCardByIndex s index uid).2.2.EEPROM.data = (ensureInitialized s).EEPROM.data := by
  simp only [getCardByIndex, getCardCount_ensure]
  split_ifs
  · exact getCardCount_data s
  · simp [readUidLoop_data, getCardCount_data]

theorem getCardByIndex_flash (s : AccessDatabase) (index : Byte) (uid : Nat → Byte) :
    (getCardByIndex s index uid).2.2.EEPROM.flash = (ensureInitialized s).EEPROM.flash := by
  simp only [getCardByIndex, getCardCount_ensure]
  split_ifs
  · exact getCardCount_flash s
  · simp [readUidLoop_flash, getCardCount_flash]

theorem getCardByIndex_initialized (s : AccessDatabase) (index : Byte) (uid : Nat → Byte) :
    (getCardByIndex s index uid).2.2.initialized = true := by
  simp only [getCardByIndex, getCardCount_ensure]
  split_ifs
  · exact getCardCount_initialized s
  · exact getCardCount_initialized s

theorem clearAllCards_data (s : AccessDatabase) :
    (clearAllCards s).EEPROM.data =
      Function.update (ensureInitialized s).EEPROM.data EEPROM_COUNT_ADDR 0 := rfl

theorem clearAllCards_initialized (s : AccessDatabase) :
    (clearAllCards s).initialized = true := ensureInitialized_initialized s

/-! ## The member functions on an initialised store -/

theorem getCardCount_val (s : AccessDatabase) (hs : Sentinel s.EEPROM.data) :
    (getCardCount s).1.val = countOf s.EEPROM.data := by
  rw [getCardCount_fst, ensureInitialized_data_of_sentinel s hs]; rfl

theorem getCardCount_snd_data (s : AccessDatabase) (hs : Sentinel s.EEPROM.data) :
    (getCardCount s).2.EEPROM.data = s.EEPROM.data := by
  rw [getCardCount_data, ensureInitialized_data_of_sentinel s hs]

theorem isCardAuthorized_true_iff (s : AccessDatabase) (uid : Nat → Byte)
    (hs : Sentinel s.EEPROM.data) :
    (isCardAuthorized s uid).1 = true ↔
      ∃ k, k < countOf s.EEPROM.data ∧ RecordIs s.EEPROM.data k uid := by
  rw [isCardAuthorized_iff, ensureInitialized_data_of_sentinel s hs]

theorem isCardAuthorized_false_iff (s : AccessDatabase) (uid : Nat → Byte)
    (hs : Sentinel s.EEPROM.data) :
    (isCardAuthorized s uid).1 = false ↔
      ∀ k, k < countOf s.EEPROM.data → ¬ RecordIs s.EEPROM.data k uid := by
  rw [← Bool.not_eq_true, isCardAuthorized_true_iff s uid hs]
  constructor
  · intro h k hk hr; exact h ⟨k, hk, hr⟩
  · rintro h ⟨k, hk, hr⟩; exact h k hk hr

theorem getCardByIndex_fst (s : AccessDatabase) (index : Byte) (uid : Nat → Byte)
    (hs : Sentinel s.EEPROM.data) :
    (getCardByIndex s index uid).1 = decide (index.val < countOf s.EEPROM.data) := by
  by_cases h : index.val < countOf s.EEPROM.data
  · rw [(getCardByIndex_of_lt s index uid
      (by rw [ensureInitialized_data_of_sentinel s hs]; exact h)).1]
    simp [h]
  · rw [getCardByIndex_of_ge s index uid
      (by rw [ensureInitialized_data_of_sentinel s hs]; exact Nat.not_lt.1 h)]
    simp [h]

theorem getCardByIndex_out (s : AccessDatabase) (index : Byte) (uid : Nat → Byte)
    (hs : Sentinel s.EEPROM.data) (x : Nat) :
    (getCardByIndex s index uid).2.1 x =
      if index.val < countOf s.EEPROM.data ∧ x < UID_SIZE then
        s.EEPROM.data (EEPROM_CARDS_START + index.val * UID_SIZE + x)
      else uid x := by
  by_cases h : index.val < countOf s.EEPROM.data
  · rw [(getCardByIndex_of_lt s index uid
      (by rw [ensureInitialized_data_of_sentinel s hs]; exact h)).2 x,
      ensureInitialized_data_of_sentinel s hs]
    simp [h]
  · rw [getCardByIndex_of_ge s index uid
      (by rw [ensureInitialized_data_of_sentinel s hs]; exact Nat.not_lt.1 h)]
    simp [h]

/-- Two initialised stores with the same memory image answer `getCardCount` and
`getCardByIndex` alike. -/
theorem view_eq_of_data_eq (s t : AccessDatabase) (hs : Sentinel s.EEPROM.data)
    (h : t.EEPROM.data = s.EEPROM.data) :
    (getCardCount t).1 = (getCardCount s).1 ∧
      ∀ (index : Byte) (uid : Nat → Byte),
        (getCardByIndex t index uid).1 = (getCardByIndex s index uid).1 ∧
        (getCardByIndex t index uid).2.1 = (getCardByIndex s index uid).2.1 := by
  have ht : Sentinel t.EEPROM.data := by rw [h]; exact hs
  refine ⟨?_, ?_⟩
  · apply Fin.ext
    rw [getCardCount_val s hs, getCardCount_val t ht, h]
  · intro index uid
    refine ⟨?_, ?_⟩
    · rw [getCardByIndex_fst s index uid hs, getCardByIndex_fst t index uid ht, h]
    · funext x
      rw [getCardByIndex_out s index uid hs, getCardByIndex_out t index uid ht, h]

end AccessDatabase

open AccessDatabase

/-! ## Insertion -/

/-- C1: on an initialised store whose count is at most `MAX_CARDS`, `addCard`
returns `CARD_EXISTS` when `isCardAuthorized` holds for the UID, otherwise
`DATABASE_FULL` when the count is `MAX_CARDS`, otherwise `CARD_ADDED`; so a UID
that is present in a full store is answered `CARD_EXISTS`, not `DATABASE_FULL`. -/
theorem addCard_outcome_order (s : AccessDatabase) (uid : Nat → Byte)
    (hs : Sentinel s.EEPROM.data) (hc : countOf s.EEPROM.data ≤ MAX_CARDS) :
    ((addCard s uid).1 =
      if (isCardAuthorized s uid).1 = true then CARD_EXISTS
      else if (getCardCount s).1.val = MAX_CARDS then DATABASE_FULL
      else CARD_ADDED) ∧
    ((isCardAuthorized s uid).1 = true → (getCardCount s).1.val = MAX_CARDS →
      (addCard s uid).1 = CARD_EXISTS) := by
  have hm := ensureInitialized_data_of_sentinel s hs
  have main : (addCard s uid).1 =
      if (isCardAuthorized s uid).1 = true then CARD_EXISTS
      else if (getCardCount s).1.val = MAX_CARDS then DATABASE_FULL
      else CARD_ADDED := by
    by_cases ha : (isCardAuthorized s uid).1 = true
    · rw [if_pos ha, addCard_of_authorized s uid ha]
    · rw [if_neg ha]
      have ha' : (isCardAuthorized s uid).1 = false := by simpa using ha
      rw [getCardCount_val s hs]
      by_cases hf : countOf s.EEPROM.data = MAX_CARDS
      · rw [if_pos hf, addCard_of_full s uid ha' (by rw [hm]; omega)]
      · rw [if_neg hf, addCard_added_fst s uid ha' (by rw [hm]; omega)]
  refine ⟨main, ?_⟩
  intro ha _
  rw [main, if_pos ha]

/-- A present UID offered to a full store: the answer is `CARD_EXISTS`. -/
theorem addCard_outcome_order_witness :
    Sentinel (storeOf fullImage).EEPROM.data ∧
    countOf (storeOf fullImage).EEPROM.data ≤ MAX_CARDS ∧
    (isCardAuthorized (storeOf fullImage) (uidOf 7 0 0 0)).1 = true ∧
    (getCardCount (storeOf fullImage)).1.val = MAX_CARDS ∧
    (addCard (storeOf fullImage) (uidOf 7 0 0 0)).1 = CARD_EXISTS :=
  ⟨by decide, by decide, by decide, by decide,
    (addCard_outcome_order (storeOf fullImage) (uidOf 7 0 0 0) (by decide) (by decide)).2
      (by decide) (by decide)⟩

theorem toUint8_val (x : Int) : (toUint8 x).val = (x % 256).toNat := rfl

/-- The memory image after a successful `addCard` on an initialised store. -/
theorem addCard_added_image (s : AccessDatabase) (uid : Nat → Byte)
    (hs : Sentinel s.EEPROM.data) (hc : countOf s.EEPROM.data < MAX_CARDS)
    (hn : (isCardAuthorized s uid).1 = false) :
    Sentinel (addCard s uid).2.EEPROM.data ∧
    countOf (addCard s uid).2.EEPROM.data = countOf s.EEPROM.data + 1 ∧
    (∀ i j, i < countOf s.EEPROM.data → j < UID_SIZE →
      (addCard s uid).2.EEPROM.data (EEPROM_CARDS_START + i * UID_SIZE + j) =
        s.EEPROM.data (EEPROM_CARDS_START + i * UID_SIZE + j)) ∧
    RecordIs (addCard s uid).2.EEPROM.data (countOf s.EEPROM.data) uid := by
  have hm := ensureInitialized_data_of_sentinel s hs
  have hd := addCard_added_data s uid hn (by rw [hm]; exact hc)
  rw [hm] at hd
  have hc' : countOf s.EEPROM.data < 20 := hc
  refine ⟨?_, ?_, ?_, ?_⟩
  · unfold Sentinel
    rw [hd, if_neg (by decide), if_neg (by simp [EEPROM_INIT_ADDR, EEPROM_CARDS_START])]
    exact hs
  · unfold countOf
    rw [hd, if_pos rfl, toUint8_val]
    unfold countOf at hc' ⊢
    omega
  · intro i j hi hj
    rw [hd, if_neg (by simp [EEPROM_COUNT_ADDR, EEPROM_CARDS_START]; omega),
      if_neg (by simp only [UID_SIZE] at *; omega)]
  · intro j hj
    rw [hd, if_neg (by simp [EEPROM_COUNT_ADDR, EEPROM_CARDS_START]; omega),
      if_pos (by omega)]
    congr 1
    omega

/-- C2: on an initialised store with fewer than `MAX_CARDS` records that does not
contain the UID, `addCard` returns `CARD_ADDED`; afterwards `getCardCount` is
the old count plus one, `getCardByIndex` at the old count yields the bytes of
the UID, and `getCardByIndex` at every smaller index yields what it did
before. -/
theorem addCard_appends (s : AccessDatabase) (uid : Nat → Byte)
    (hs : Sentinel s.EEPROM.data) (hc : countOf s.EEPROM.data < MAX_CARDS)
    (hn : (isCardAuthorized s uid).1 = false) :
    (addCard s uid).1 = CARD_ADDED ∧
    (getCardCount (addCard s uid).2).1.val = (getCardCount s).1.val + 1 ∧
    (∀ out : Nat → Byte,
      (getCardByIndex (addCard s uid).2 (getCardCount s).1 out).1 = true ∧
      ∀ j, j < UID_SIZE →
        (getCardByIndex (addCard s uid).2 (getCardCount s).1 out).2.1 j = uid j) ∧
    (∀ (i : Byte) (out : Nat → Byte), i.val < (getCardCount s).1.val →
      (getCardByIndex (addCard s uid).2 i out).1 = true ∧
      (getCardByIndex s i out).1 = true ∧
      (getCardByIndex (addCard s uid).2 i out).2.1 = (getCardByIndex s i out).2.1) := by
  have hm := ensureInitialized_data_of_sentinel s hs
  obtain ⟨h1, h2, h3, h4⟩ := addCard_added_image s uid hs hc hn
  have hcv := getCardCount_val s hs
  refine ⟨addCard_added_fst s uid hn (by rw [hm]; exact hc), ?_, ?_, ?_⟩
  · rw [getCardCount_val _ h1, hcv, h2]
  · intro out
    refine ⟨?_, ?_⟩
    · rw [getCardByIndex_fst _ _ _ h1, hcv, h2]; simp
    · intro j hj
      rw [getCardByIndex_out _ _ _ h1, hcv, h2, if_pos ⟨by omega, hj⟩]
      exact h4 j hj
  · intro i out hi
    rw [hcv] at hi
    refine ⟨?_, ?_, ?_⟩
    · rw [getCardByIndex_fst _ _ _ h1, h2]; simp; omega
    · rw [getCardByIndex_fst _ _ _ hs]; simp [hi]
    · funext x
      rw [getCardByIndex_out _ _ _ h1, getCardByIndex_out _ _ _ hs, h2]
      by_cases hx : x < UID_SIZE
      · rw [if_pos ⟨by omega, hx⟩, if_pos ⟨hi, hx⟩]
        exact h3 i.val x hi hx
      · rw [if_neg (by tauto), if_neg (by tauto)]

/-- The UID `9 9 9 9` is appended to the store holding three other records. -/
theorem addCard_appends_witness :
    Sentinel (storeOf threeImage).EEPROM.data ∧
    countOf (storeOf threeImage).EEPROM.data < MAX_CARDS ∧
    (isCardAuthorized (storeOf threeImage) (uidOf 9 9 9 9)).1 = false ∧
    (addCard (storeOf threeImage) (uidOf 9 9 9 9)).1 = CARD_ADDED ∧
    (getCardCount (addCard (storeOf threeImage) (uidOf 9 9 9 9)).2).1.val = 4 :=
  ⟨by decide, by decide, by decide,
    (addCard_appends (storeOf threeImage) (uidOf 9 9 9 9) (by decide) (by decide)
      (by decide)).1,
    by
      have h := (addCard_appends (storeOf threeImage) (uidOf 9 9 9 9) (by decide)
        (by decide) (by decide)).2.1
      rw [h]; decide⟩

/-- A refused `addCard` on an initialised store changes no byte. -/
theorem addCard_rejected_image (s : AccessDatabase) (uid : Nat → Byte)
    (hs : Sentinel s.EEPROM.data)
    (hr : (addCard s uid).1 = CARD_EXISTS ∨ (addCard s uid).1 = DATABASE_FULL) :
    (addCard s uid).2.EEPROM.data = s.EEPROM.data ∧
    (addCard s uid).2.EEPROM.flash = s.EEPROM.flash := by
  have hm := ensureInitialized_data_of_sentinel s hs
  have hf := ensureInitialized_flash_of_sentinel s hs
  by_cases ha : (isCardAuthorized s uid).1 = true
  · rw [addCard_of_authorized s uid ha]
    exact ⟨by rw [isCardAuthorized_data, hm], by rw [isCardAuthorized_flash, hf]⟩
  · have ha' : (isCardAuthorized s uid).1 = false := by simpa using ha
    by_cases hc : MAX_CARDS ≤ countOf s.EEPROM.data
    · rw [addCard_of_full s uid ha' (by rw [hm]; exact hc)]
      refine ⟨?_, ?_⟩
      · show (getCardCount (isCardAuthorized s uid).2).2.EEPROM.data = _
        rw [getCardCount_data, ensureInitialized_isCardAuthorized, isCardAuthorized_data, hm]
      · show (getCardCount (isCardAuthorized s uid).2).2.EEPROM.flash = _
        rw [getCardCount_flash, ensureInitialized_isCardAuthorized, isCardAuthorized_flash,
          hf]
    · have hadd := addCard_added_fst s uid ha' (by rw [hm]; omega)
      rw [hadd] at hr
      rcases hr with h | h <;> exact absurd h (by decide)

/-- C3: on an initialised store, whenever `addCard` returns `CARD_EXISTS` or
`DATABASE_FULL`, every byte of the memory (write buffer and durable image) is
what it was, and `getCardCount` and every `getCardByIndex` answer as before. -/
theorem addCard_rejected_unchanged (s : AccessDatabase) (uid : Nat → Byte)
    (hs : Sentinel s.EEPROM.data)
    (hr : (addCard s uid).1 = CARD_EXISTS ∨ (addCard s uid).1 = DATABASE_FULL) :
    (addCard s uid).2.EEPROM.data = s.EEPROM.data ∧
    (addCard s uid).2.EEPROM.flash = s.EEPROM.flash ∧
    (getCardCount (addCard s uid).2).1 = (getCardCount s).1 ∧
    ∀ (index : Byte) (out : Nat → Byte),
      (getCardByIndex (addCard s uid).2 index out).1 = (getCardByIndex s index out).1 ∧
      (getCardByIndex (addCard s uid).2 index out).2.1 = (getCardByIndex s index out).2.1 := by
  have key := addCard_rejected_image s uid hs hr
  have hv := view_eq_of_data_eq s (addCard s uid).2 hs key.1
  exact ⟨key.1, key.2, hv.1, hv.2⟩

/-- A full store refuses a new UID and keeps its count byte. -/
theorem addCard_rejected_unchanged_witness :
    Sentinel (storeOf fullImage).EEPROM.data ∧
    (addCard (storeOf fullImage) (uidOf 1 1 1 1)).1 = DATABASE_FULL ∧
    (addCard (storeOf fullImage) (uidOf 1 1 1 1)).2.EEPROM.data = fullImage :=
  ⟨by decide, by decide,
    (addCard_rejected_unchanged (storeOf fullImage) (uidOf 1 1 1 1) (by decide)
      (Or.inr (by decide))).1⟩

/-! ## Removal -/

/-- The first slot below `n` holding the bytes of `uid`, when some slot does. -/
theorem exists_first_match (m : Nat → Byte) (uid : Nat → Byte) (n : Nat)
    (h : ∃ k, k < n ∧ RecordIs m k uid) :
    ∃ k, k < n ∧ RecordIs m k uid ∧ ∀ k', k' < k → ¬ RecordIs m k' uid := by
  classical
  refine ⟨Nat.find h, (Nat.find_spec h).1, (Nat.find_spec h).2, ?_⟩
  intro k' hk' hr
  exact Nat.find_min h hk' ⟨lt_trans hk' (Nat.find_spec h).1, hr⟩

/-- C4: on an initialised store `removeCard` returns `CARD_REMOVED` exactly when
`isCardAuthorized` held for the UID; otherwise it returns `DATABASE_ERROR`,
every byte of the memory is what it was and `getCardCount` is unchanged. On
the empty store it always returns `DATABASE_ERROR`. -/
theorem removeCard_outcome (s : AccessDatabase) (uid : Nat → Byte)
    (hs : Sentinel s.EEPROM.data) :
    ((removeCard s uid).1 = CARD_REMOVED ↔ (isCardAuthorized s uid).1 = true) ∧
    ((isCardAuthorized s uid).1 = false →
      (removeCard s uid).1 = DATABASE_ERROR ∧
      (removeCard s uid).2.EEPROM.data = s.EEPROM.data ∧
      (removeCard s uid).2.EEPROM.flash = s.EEPROM.flash ∧
      (getCardCount (removeCard s uid).2).1 = (getCardCount s).1) ∧
    (countOf s.EEPROM.data = 0 → (removeCard s uid).1 = DATABASE_ERROR) := by
  have hm := ensureInitialized_data_of_sentinel s hs
  have hf := ensureInitialized_flash_of_sentinel s hs
  have absent : (isCardAuthorized s uid).1 = false →
      (removeCard s uid).1 = DATABASE_ERROR ∧
      (removeCard s uid).2.EEPROM.data = s.EEPROM.data ∧
      (removeCard s uid).2.EEPROM.flash = s.EEPROM.flash := by
    intro ha
    have h := removeCard_not_found s uid
      (by rw [hm]; exact (isCardAuthorized_false_iff s uid hs).1 ha)
    rw [hm, hf] at h
    exact h
  refine ⟨?_, ?_, ?_⟩
  · constructor
    · intro hrem
      by_contra ha
      have ha' : (isCardAuthorized s uid).1 = false := by simpa using ha
      rw [(absent ha').1] at hrem
      exact absurd hrem (by decide)
    · intro ha
      obtain ⟨k, hk, hr, hmin⟩ :=
        exists_first_match _ _ _ ((isCardAuthorized_true_iff s uid hs).1 ha)
      exact (removeCard_found s uid k (by rw [hm]; exact hk) (by rw [hm]; exact hr)
        (by rw [hm]; exact hmin)).1
  · intro ha
    obtain ⟨h1, h2, h3⟩ := absent ha
    exact ⟨h1, h2, h3, (view_eq_of_data_eq s _ hs h2).1⟩
  · intro h0
    apply (absent _).1
    rw [isCardAuthorized_false_iff s uid hs]
    intro k hk; omega

/-- The empty store reports not-found. -/
theorem removeCard_outcome_witness :
    Sentinel (storeOf emptyImage).EEPROM.data ∧
    countOf (storeOf emptyImage).EEPROM.data = 0 ∧
    (removeCard (storeOf emptyImage) (uidOf 1 2 3 4)).1 = DATABASE_ERROR :=
  ⟨by decide, by decide,
    (removeCard_outcome (storeOf emptyImage) (uidOf 1 2 3 4) (by decide)).2.2 (by decide)⟩

/-- The memory image after a successful `removeCard` on an initialised store
whose first slot holding the UID is `k`. -/
theorem removeCard_found_image (s : AccessDatabase) (uid : Nat → Byte) (k : Nat)
    (hs : Sentinel s.EEPROM.data) (hk : k < countOf s.EEPROM.data)
    (hr : RecordIs s.EEPROM.data k uid)
    (hmin : ∀ k', k' < k → ¬ RecordIs s.EEPROM.data k' uid) :
    Sentinel (removeCard s uid).2.EEPROM.data ∧
    countOf (removeCard s uid).2.EEPROM.data + 1 = countOf s.EEPROM.data ∧
    (∀ i j, i < k → j < UID_SIZE →
      (removeCard s uid).2.EEPROM.data (EEPROM_CARDS_START + i * UID_SIZE + j) =
        s.EEPROM.data (EEPROM_CARDS_START + i * UID_SIZE + j)) ∧
    (∀ i j, k ≤ i → i + 1 < countOf s.EEPROM.data → j < UID_SIZE →
      (removeCard s uid).2.EEPROM.data (EEPROM_CARDS_START + i * UID_SIZE + j) =
        s.EEPROM.data (EEPROM_CARDS_START + (i + 1) * UID_SIZE + j)) := by
  have hm := ensureInitialized_data_of_sentinel s hs
  have hd := (removeCard_found s uid k (by rw [hm]; exact hk) (by rw [hm]; exact hr)
    (by rw [hm]; exact hmin)).2.1
  rw [hm] at hd
  have hlt : countOf s.EEPROM.data < 256 := (s.EEPROM.data EEPROM_COUNT_ADDR).isLt
  refine ⟨?_, ?_, ?_, ?_⟩
  · unfold Sentinel
    rw [hd, if_neg (by decide), if_neg (by simp [EEPROM_INIT_ADDR, EEPROM_CARDS_START])]
    exact hs
  · have h1 := hd EEPROM_COUNT_ADDR
    rw [if_pos rfl] at h1
    have h2 : countOf (removeCard s uid).2.EEPROM.data
        = (((countOf s.EEPROM.data : Int) - 1) % 256).toNat := by
      unfold countOf at *
      rw [h1, toUint8_val]
    omega
  · intro i j hi hj
    rw [hd, if_neg (by simp [EEPROM_COUNT_ADDR, EEPROM_CARDS_START]; omega),
      if_neg (by simp only [UID_SIZE] at *; omega)]
  · intro i j hi hi' hj
    rw [hd, if_neg (by simp [EEPROM_COUNT_ADDR, EEPROM_CARDS_START]; omega),
      if_pos (by simp only [UID_SIZE] at *; omega)]
    congr 1
    simp only [UID_SIZE]; omega

/-- C5: on an initialised store with at most `MAX_CARDS` records, let `k` be the
first slot holding the UID. Then `removeCard` returns `CARD_REMOVED`,
`getCardCount` afterwards is the old count minus one, `getCardByIndex i`
yields the old record `i` for `i < k` and the old record `i + 1` for
`k <= i < old count - 1`. -/
theorem removeCard_compacts (s : AccessDatabase) (uid : Nat → Byte) (k : Nat)
    (hs : Sentinel s.EEPROM.data) (_hc : countOf s.EEPROM.data ≤ MAX_CARDS)
    (hk : k < countOf s.EEPROM.data) (hr : RecordIs s.EEPROM.data k uid)
    (hmin : ∀ k', k' < k → ¬ RecordIs s.EEPROM.data k' uid) :
    (removeCard s uid).1 = CARD_REMOVED ∧
    (getCardCount (removeCard s uid).2).1.val = (getCardCount s).1.val - 1 ∧
    (∀ (i : Byte) (out : Nat → Byte), i.val < k →
      (getCardByIndex (removeCard s uid).2 i out).1 = true ∧
      (getCardByIndex s i out).1 = true ∧
      (getCardByIndex (removeCard s uid).2 i out).2.1 = (getCardByIndex s i out).2.1) ∧
    (∀ (i i' : Byte) (out : Nat → Byte), k ≤ i.val → i'.val = i.val + 1 →
      i.val < (getCardCount s).1.val - 1 →
      (getCardByIndex (removeCard s uid).2 i out).1 = true ∧
      (getCardByIndex s i' out).1 = true ∧
      (getCardByIndex (removeCard s uid).2 i out).2.1 = (getCardByIndex s i' out).2.1) := by
  have hm := ensureInitialized_data_of_sentinel s hs
  obtain ⟨h1, h2, h3, h4⟩ := removeCard_found_image s uid k hs hk hr hmin
  have hcv := getCardCount_val s hs
  refine ⟨(removeCard_found s uid k (by rw [hm]; exact hk) (by rw [hm]; exact hr)
    (by rw [hm]; exact hmin)).1, ?_, ?_, ?_⟩
  · rw [getCardCount_val _ h1, hcv]; omega
  · intro i out hi
    refine ⟨?_, ?_, ?_⟩
    · rw [getCardByIndex_fst _ _ _ h1]; simp; omega
    · rw [getCardByIndex_fst _ _ _ hs]; simp; omega
    · funext x
      rw [getCardByIndex_out _ _ _ h1, getCardByIndex_out _ _ _ hs]
      by_cases hx : x < UID_SIZE
      · rw [if_pos ⟨by omega, hx⟩, if_pos ⟨by omega, hx⟩]
        exact h3 i.val x hi hx
      · rw [if_neg (by tauto), if_neg (by tauto)]
  · intro i i' out hi hi' hlt
    rw [hcv] at hlt
    refine ⟨?_, ?_, ?_⟩
    · rw [getCardByIndex_fst _ _ _ h1]; simp; omega
    · rw [getCardByIndex_fst _ _ _ hs]; simp; omega
    · funext x
      rw [getCardByIndex_out _ _ _ h1, getCardByIndex_out _ _ _ hs]
      by_cases hx : x < UID_SIZE
      · rw [if_pos ⟨by omega, hx⟩, if_pos ⟨by omega, hx⟩, hi']
        exact h4 i.val x hi (by omega) hx
      · rw [if_neg (by tauto), if_neg (by tauto)]

/-- Inserting `A`, `B`, `C` into the empty store and removing `B` enumerates
`A`, `C`. -/
theorem removeCard_compacts_witness :
    Sentinel abcStore.EEPROM.data ∧
    countOf abcStore.EEPROM.data ≤ MAX_CARDS ∧
    1 < countOf abcStore.EEPROM.data ∧
    RecordIs abcStore.EEPROM.data 1 (uidOf 0xAA 0xBB 0xCC 0xDD) ∧
    (∀ k', k' < 1 → ¬ RecordIs abcStore.EEPROM.data k' (uidOf 0xAA 0xBB 0xCC 0xDD)) ∧
    (removeCard abcStore (uidOf 0xAA 0xBB 0xCC 0xDD)).1 = CARD_REMOVED ∧
    (getCardCount (removeCard abcStore (uidOf 0xAA 0xBB 0xCC 0xDD)).2).1.val = 2 ∧
    (List.range 4).map
      (getCardByIndex (removeCard abcStore (uidOf 0xAA 0xBB 0xCC 0xDD)).2 0 (uidOf 0 0 0 0)).2.1
      = [1, 2, 3, 4] ∧
    (List.range 4).map
      (getCardByIndex (removeCard abcStore (uidOf 0xAA 0xBB 0xCC 0xDD)).2 1 (uidOf 0 0 0 0)).2.1
      = [0x11, 0x22, 0x33, 0x44] :=
  ⟨by decide, by decide, by decide, by decide, by decide,
    (removeCard_compacts abcStore (uidOf 0xAA 0xBB 0xCC 0xDD) 1 (by decide) (by decide)
      (by decide) (by decide) (by decide)).1,
    by decide, by decide, by decide⟩

/-- C6: on an initialised store with at most `MAX_CARDS` pairwise distinct
records that contains `x`, `removeCard x` returns `CARD_REMOVED`; afterwards
`isCardAuthorized x` is false and `getCardCount` is exactly one less. -/
theorem removeCard_then_absent (s : AccessDatabase) (x : Nat → Byte)
    (hs : Sentinel s.EEPROM.data) (_hc : countOf s.EEPROM.data ≤ MAX_CARDS)
    (hd : Distinct s.EEPROM.data) (hx : (isCardAuthorized s x).1 = true) :
    (removeCard s x).1 = CARD_REMOVED ∧
    (isCardAuthorized (removeCard s x).2 x).1 = false ∧
    (getCardCount (removeCard s x).2).1.val + 1 = (getCardCount s).1.val := by
  have hm := ensureInitialized_data_of_sentinel s hs
  obtain ⟨k, hk, hr, hmin⟩ :=
    exists_first_match _ _ _ ((isCardAuthorized_true_iff s x hs).1 hx)
  obtain ⟨h1, h2, h3, h4⟩ := removeCard_found_image s x k hs hk hr hmin
  refine ⟨(removeCard_found s x k (by rw [hm]; exact hk) (by rw [hm]; exact hr)
    (by rw [hm]; exact hmin)).1, ?_, ?_⟩
  · rw [isCardAuthorized_false_iff _ _ h1]
    intro i hi hri
    by_cases hik : i < k
    · apply hmin i hik
      intro j hj
      rw [← h3 i j hik hj]
      exact hri j hj
    · have hik' : k ≤ i := Nat.not_lt.1 hik
      have hsame : SameRecord s.EEPROM.data (i + 1) k := by
        intro j hj
        rw [← h4 i j hik' (by omega) hj, hri j hj, hr j hj]
      have := hd (i + 1) (by omega) k hk hsame
      omega
  · rw [getCardCount_val _ h1, getCardCount_val s hs]
    exact h2

/-- Removing the middle one of three distinct records leaves it absent. -/
theorem removeCard_then_absent_witness :
    Sentinel (storeOf threeImage).EEPROM.data ∧
    countOf (storeOf threeImage).EEPROM.data ≤ MAX_CARDS ∧
    Distinct (storeOf threeImage).EEPROM.data ∧
    (isCardAuthorized (storeOf threeImage) (uidOf 5 6 7 8)).1 = true ∧
    (isCardAuthorized (removeCard (storeOf threeImage) (uidOf 5 6 7 8)).2 (uidOf 5 6 7 8)).1
      = false :=
  ⟨by decide, by decide, by decide, by decide,
    (removeCard_then_absent (storeOf threeImage) (uidOf 5 6 7 8) (by decide) (by decide)
      (by decide) (by decide)).2.1⟩

/-! ## Invariants of the reachable states -/

theorem addCard_ensure (s : AccessDatabase) (uid : Nat → Byte) :
    addCard (ensureInitialized s) uid = addCard s uid := by
  simp [addCard]

theorem removeCard_ensure (s : AccessDatabase) (uid : Nat → Byte) :
    removeCard (ensureInitialized s) uid = removeCard s uid := by
  simp [removeCard]

theorem getCardByIndex_ensure (s : AccessDatabase) (index : Byte) (uid : Nat → Byte) :
    getCardByIndex (ensureInitialized s) index uid = getCardByIndex s index uid := by
  simp [getCardByIndex]

theorem clearAllCards_ensure (s : AccessDatabase) :
    clearAllCards (ensureInitialized s) = clearAllCards s := by
  simp [clearAllCards]

theorem begin_eq_initializeEEPROM (s : AccessDatabase) : s.begin = initializeEEPROM s := rfl

/-- What a successful or refused `addCard` keeps true of an initialised store. -/
theorem addCard_preserves (s : AccessDatabase) (uid : Nat → Byte)
    (hs : Sentinel s.EEPROM.data) :
    Sentinel (addCard s uid).2.EEPROM.data ∧
    (countOf s.EEPROM.data ≤ MAX_CARDS → countOf (addCard s uid).2.EEPROM.data ≤ MAX_CARDS) ∧
    (Distinct s.EEPROM.data → Distinct (addCard s uid).2.EEPROM.data) := by
  have hm := ensureInitialized_data_of_sentinel s hs
  by_cases ha : (isCardAuthorized s uid).1 = true
  · have hd : (addCard s uid).2.EEPROM.data = s.EEPROM.data := by
      rw [addCard_of_authorized s uid ha]
      show (isCardAuthorized s uid).2.EEPROM.data = _
      rw [isCardAuthorized_data, hm]
    rw [hd]; exact ⟨hs, id, id⟩
  · have ha' : (isCardAuthorized s uid).1 = false := by simpa using ha
    by_cases hc : MAX_CARDS ≤ countOf s.EEPROM.data
    · have hd : (addCard s uid).2.EEPROM.data = s.EEPROM.data := by
        rw [addCard_of_full s uid ha' (by rw [hm]; exact hc)]
        show (getCardCount (isCardAuthorized s uid).2).2.EEPROM.data = _
        rw [getCardCount_data, ensureInitialized_isCardAuthorized, isCardAuthorized_data, hm]
      rw [hd]; exact ⟨hs, id, id⟩
    · have hc' : countOf s.EEPROM.data < MAX_CARDS := Nat.not_le.1 hc
      obtain ⟨h1, h2, h3, h4⟩ := addCard_added_image s uid hs hc' ha'
      have hno := (isCardAuthorized_false_iff s uid hs).1 ha'
      refine ⟨h1, fun _ => by rw [h2]; omega, ?_⟩
      intro hd i hi k hk hsame
      rw [h2] at hi hk
      have old_of_lt : ∀ a, a < countOf s.EEPROM.data →
          ∀ j, j < UID_SIZE →
            (addCard s uid).2.EEPROM.data (EEPROM_CARDS_START + a * UID_SIZE + j)
              = s.EEPROM.data (EEPROM_CARDS_START + a * UID_SIZE + j) :=
        fun a ha j hj => h3 a j ha hj
      by_cases hi' : i < countOf s.EEPROM.data
      · by_cases hk' : k < countOf s.EEPROM.data
        · apply hd i hi' k hk'
          intro j hj
          rw [← old_of_lt i hi' j hj, ← old_of_lt k hk' j hj]
          exact hsame j hj
        · have hk'' : k = countOf s.EEPROM.data := by omega
          subst hk''
          exfalso
          apply hno i hi'
          intro j hj
          rw [← old_of_lt i hi' j hj, hsame j hj]
          exact h4 j hj
      · have hi'' : i = countOf s.EEPROM.data := by omega
        by_cases hk' : k < countOf s.EEPROM.data
        · subst hi''
          exfalso
          apply hno k hk'
          intro j hj
          rw [← old_of_lt k hk' j hj, ← hsame j hj]
          exact h4 j hj
        · omega

/-- What a successful or refused `removeCard` keeps true of an initialised
store. -/
theorem removeCard_preserves (s : AccessDatabase) (uid : Nat → Byte)
    (hs : Sentinel s.EEPROM.data) :
    Sentinel (removeCard s uid).2.EEPROM.data ∧
    (countOf s.EEPROM.data ≤ MAX_CARDS →
      countOf (removeCard s uid).2.EEPROM.data ≤ MAX_CARDS) ∧
    (Distinct s.EEPROM.data → Distinct (removeCard s uid).2.EEPROM.data) := by
  have hm := ensureInitialized_data_of_sentinel s hs
  by_cases ha : (isCardAuthorized s uid).1 = true
  · obtain ⟨k, hk, hr, hmin⟩ :=
      exists_first_match _ _ _ ((isCardAuthorized_true_iff s uid hs).1 ha)
    obtain ⟨h1, h2, h3, h4⟩ := removeCard_found_image s uid k hs hk hr hmin
    refine ⟨h1, fun _ => by omega, ?_⟩
    intro hd i hi l hl hsame
    have slot : ∀ a, a < countOf (removeCard s uid).2.EEPROM.data →
        ∀ j, j < UID_SIZE →
          (removeCard s uid).2.EEPROM.data (EEPROM_CARDS_START + a * UID_SIZE + j)
            = s.EEPROM.data
                (EEPROM_CARDS_START + (if a < k then a else a + 1) * UID_SIZE + j) := by
      intro a ha j hj
      by_cases hak : a < k
      · rw [if_pos hak]; exact h3 a j hak hj
      · rw [if_neg hak]; exact h4 a j (Nat.not_lt.1 hak) (by omega) hj
    have := hd (if i < k then i else i + 1) (by split_ifs <;> omega)
      (if l < k then l else l + 1) (by split_ifs <;> omega)
      (by
        intro j hj
        rw [← slot i hi j hj, ← slot l hl j hj]
        exact hsame j hj)
    split_ifs at this <;> omega
  · have ha' : (isCardAuthorized s uid).1 = false := by simpa using ha
    have hd := (removeCard_not_found s uid
      (by rw [hm]; exact (isCardAuthorized_false_iff s uid hs).1 ha')).2.1
    rw [hm] at hd
    rw [hd]; exact ⟨hs, id, id⟩

/-- What `clearAllCards` makes true of an initialised store. -/
theorem clearAllCards_image (s : AccessDatabase) (hs : Sentinel s.EEPROM.data) :
    Sentinel (clearAllCards s).EEPROM.data ∧ countOf (clearAllCards s).EEPROM.data = 0 ∧
    ∀ a, a ≠ EEPROM_COUNT_ADDR → (clearAllCards s).EEPROM.data a = s.EEPROM.data a := by
  rw [clearAllCards_data, ensureInitialized_data_of_sentinel s hs]
  refine ⟨?_, ?_, ?_⟩
  · unfold Sentinel
    rw [Function.update_noteq (by decide)]
    exact hs
  · simp [countOf]
  · intro a ha
    rw [Function.update_noteq ha]

/-- Every call keeps an initialised store initialised, keeps its count within
`MAX_CARDS` and keeps its records pairwise distinct. -/
theorem run_preserves (c : Call) (s : AccessDatabase) (hs : Sentinel s.EEPROM.data) :
    Sentinel (c.run s).EEPROM.data ∧
    (countOf s.EEPROM.data ≤ MAX_CARDS → countOf (c.run s).EEPROM.data ≤ MAX_CARDS) ∧
    (Distinct s.EEPROM.data → Distinct (c.run s).EEPROM.data) := by
  have hm := ensureInitialized_data_of_sentinel s hs
  have same : ∀ t : AccessDatabase, t.EEPROM.data = s.EEPROM.data →
      Sentinel t.EEPROM.data ∧
      (countOf s.EEPROM.data ≤ MAX_CARDS → countOf t.EEPROM.data ≤ MAX_CARDS) ∧
      (Distinct s.EEPROM.data → Distinct t.EEPROM.data) := by
    intro t ht
    rw [ht]; exact ⟨hs, id, id⟩
  cases c with
  | begin => exact same _ (initializeEEPROM_data_of_sentinel s hs)
  | getCardCount => exact same _ (getCardCount_snd_data s hs)
  | isCardAuthorized uid =>
    exact same _ ((isCardAuthorized_data s uid).trans hm)
  | addCard uid => exact addCard_preserves s uid hs
  | removeCard uid => exact removeCard_preserves s uid hs
  | getCardByIndex index uid =>
    exact same _ ((getCardByIndex_data s index uid).trans hm)
  | clearAllCards =>
    obtain ⟨h1, h2, -⟩ := clearAllCards_image s hs
    refine ⟨h1, fun _ => ?_, fun _ => ?_⟩
    · show countOf (clearAllCards s).EEPROM.data ≤ MAX_CARDS
      rw [h2]; exact Nat.zero_le _
    · intro i hi
      have : countOf (clearAllCards s).EEPROM.data = 0 := h2
      change i < countOf (clearAllCards s).EEPROM.data at hi
      omega

/-- Every call other than `begin` starts with the lazy initialisation. -/
theorem run_ensure (c : Call) (s : AccessDatabase) (hc : c ≠ Call.begin) :
    c.run (ensureInitialized s) = c.run s := by
  cases c with
  | begin => exact absurd rfl hc
  | getCardCount => simp [Call.run, getCardCount_ensure]
  | isCardAuthorized uid => simp [Call.run, isCardAuthorized_ensure]
  | addCard uid => simp [Call.run, addCard_ensure]
  | removeCard uid => simp [Call.run, removeCard_ensure]
  | getCardByIndex index uid => simp [Call.run, getCardByIndex_ensure]
  | clearAllCards => simp [Call.run, clearAllCards_ensure]

theorem logicalInv_of_sentinel (P : (Nat → Byte) → Prop) (s : AccessDatabase)
    (hs : Sentinel s.EEPROM.data) (hp : P s.EEPROM.data) : LogicalInv P s := by
  unfold LogicalInv
  rw [ensureInitialized_data_of_sentinel s hs]
  exact ⟨hs, hp⟩

theorem logicalInv_of_uninitialised (P : (Nat → Byte) → Prop)
    (hinit : ∀ m, ¬ Sentinel m →
      P (Function.update (Function.update m EEPROM_INIT_ADDR 0xAA) EEPROM_COUNT_ADDR 0))
    (s : AccessDatabase) (hf : s.initialized = false) (hs : ¬ Sentinel s.EEPROM.data) :
    LogicalInv P s := by
  unfold LogicalInv
  have he : ensureInitialized s = initializeEEPROM s := by simp [ensureInitialized, hf]
  rw [he]
  refine ⟨initializeEEPROM_sentinel s, ?_⟩
  rw [initializeEEPROM_data_of_not_sentinel s hs]
  exact hinit _ hs

/-- One call from a logically good state ends in an initialised store with the
property. -/
theorem run_logicalInv (P : (Nat → Byte) → Prop)
    (hstep : ∀ (c : Call) (s : AccessDatabase), Sentinel s.EEPROM.data →
      P s.EEPROM.data → P (c.run s).EEPROM.data)
    (hinit : ∀ m, ¬ Sentinel m →
      P (Function.update (Function.update m EEPROM_INIT_ADDR 0xAA) EEPROM_COUNT_ADDR 0))
    (c : Call) (s : AccessDatabase) (h : LogicalInv P s) :
    Sentinel (c.run s).EEPROM.data ∧ P (c.run s).EEPROM.data := by
  by_cases hc : c = Call.begin
  · subst hc
    show Sentinel (initializeEEPROM s).EEPROM.data ∧ P (initializeEEPROM s).EEPROM.data
    refine ⟨initializeEEPROM_sentinel s, ?_⟩
    by_cases hs : Sentinel s.EEPROM.data
    · have := h.2
      rw [ensureInitialized_data_of_sentinel s hs] at this
      rw [initializeEEPROM_data_of_sentinel s hs]
      exact this
    · rw [initializeEEPROM_data_of_not_sentinel s hs]
      exact hinit _ hs
  · rw [← run_ensure c s hc]
    exact ⟨(run_preserves c _ h.1).1, hstep c _ h.1 h.2⟩

/-- Any sequence of calls from a logically good state ends in a logically good
state, and after at least one call in an initialised store with the property. -/
theorem runCalls_logicalInv (P : (Nat → Byte) → Prop)
    (hstep : ∀ (c : Call) (s : AccessDatabase), Sentinel s.EEPROM.data →
      P s.EEPROM.data → P (c.run s).EEPROM.data)
    (hinit : ∀ m, ¬ Sentinel m →
      P (Function.update (Function.update m EEPROM_INIT_ADDR 0xAA) EEPROM_COUNT_ADDR 0))
    (cs : List Call) (s : AccessDatabase) (h : LogicalInv P s) :
    LogicalInv P (runCalls cs s) ∧
    (cs ≠ [] → Sentinel (runCalls cs s).EEPROM.data ∧ P (runCalls cs s).EEPROM.data) := by
  induction cs generalizing s with
  | nil => exact ⟨h, fun hne => absurd rfl hne⟩
  | cons c cs ih =>
    have h1 := run_logicalInv P hstep hinit c s h
    have h2 := ih (c.run s) (logicalInv_of_sentinel P _ h1.1 h1.2)
    refine ⟨h2.1, fun _ => ?_⟩
    by_cases hcs : cs = []
    · subst hcs; exact h1
    · exact h2.2 hcs

/-- C8, as amended: from an uninitialised memory with the flag unset, or from an
initialised store with count at most `MAX_CARDS`, after every finite sequence of
at least one call, and after no call when the start is an initialised store,
the sentinel is `0xAA` and the persisted count byte is at most `MAX_CARDS`; and
after every finite sequence, the empty one on an uninitialised memory
included, the count that `getCardCount` reports is at most `MAX_CARDS`. -/
theorem count_bound_reachable (s : AccessDatabase) (cs : List Call)
    (h0 : (s.initialized = false ∧ ¬ Sentinel s.EEPROM.data) ∨
      (Sentinel s.EEPROM.data ∧ countOf s.EEPROM.data ≤ MAX_CARDS)) :
    (cs ≠ [] ∨ Sentinel s.EEPROM.data →
      Sentinel (runCalls cs s).EEPROM.data ∧
      0 ≤ countOf (runCalls cs s).EEPROM.data ∧
      countOf (runCalls cs s).EEPROM.data ≤ MAX_CARDS) ∧
    (getCardCount (runCalls cs s)).1.val ≤ MAX_CARDS := by
  have hstep : ∀ (c : Call) (s : AccessDatabase), Sentinel s.EEPROM.data →
      countOf s.EEPROM.data ≤ MAX_CARDS → countOf (c.run s).EEPROM.data ≤ MAX_CARDS :=
    fun c s hs hp => (run_preserves c s hs).2.1 hp
  have hinit : ∀ m : Nat → Byte, ¬ Sentinel m →
      countOf (Function.update (Function.update m EEPROM_INIT_ADDR 0xAA) EEPROM_COUNT_ADDR 0)
        ≤ MAX_CARDS := by
    intro m _
    simp [countOf]
  have hstart : LogicalInv (fun m => countOf m ≤ MAX_CARDS) s := by
    rcases h0 with ⟨hf, hs⟩ | ⟨hs, hc⟩
    · exact logicalInv_of_uninitialised _ hinit s hf hs
    · exact logicalInv_of_sentinel _ s hs hc
  obtain ⟨h1, h2⟩ := runCalls_logicalInv _ hstep hinit cs s hstart
  refine ⟨?_, ?_⟩
  · intro hcase
    by_cases hne : cs = []
    · subst hne
      rcases hcase with h | h
      · exact absurd rfl h
      · rcases h0 with ⟨-, hs⟩ | ⟨hs, hc⟩
        · exact absurd h hs
        · exact ⟨hs, Nat.zero_le _, hc⟩
    · exact ⟨(h2 hne).1, Nat.zero_le _, (h2 hne).2⟩
  · rw [getCardCount_fst]
    exact h1.2

/-- A run of seven calls over an erased memory, whose count byte starts at
255, ends with the sentinel set and the count byte at 1. -/
theorem count_bound_reachable_witness :
    ((storeOf erasedImage).initialized = false ∧ ¬ Sentinel (storeOf erasedImage).EEPROM.data) ∧
    countOf (storeOf erasedImage).EEPROM.data = 255 ∧
    countOf (runCalls sampleCalls (storeOf erasedImage)).EEPROM.data = 1 ∧
    countOf (runCalls sampleCalls (storeOf erasedImage)).EEPROM.data ≤ MAX_CARDS :=
  ⟨by decide, by decide, by decide,
    ((count_bound_reachable (storeOf erasedImage) sampleCalls (Or.inl (by decide))).1
      (Or.inl (List.cons_ne_nil _ _))).2.2⟩

/-- An erased memory with the flag unset, before any call: the persisted count
byte is 255, above `MAX_CARDS`, so the count bound does not hold after the
empty sequence of calls. -/
theorem count_bound_fails_before_first_call :
    ((storeOf erasedImage).initialized = false ∧ ¬ Sentinel (storeOf erasedImage).EEPROM.data) ∧
    countOf (runCalls [] (storeOf erasedImage)).EEPROM.data = 255 ∧
    ¬ countOf (runCalls [] (storeOf erasedImage)).EEPROM.data ≤ MAX_CARDS := by
  decide

/-- C7, as amended: from an uninitialised memory with the flag unset, or from an
initialised store with count at most `MAX_CARDS` and pairwise distinct records,
after every finite sequence of at least one call, and after no call when the
start is an initialised store, the sentinel is `0xAA` and no two record slots
below the persisted count hold the same bytes; and after every finite
sequence, the empty one on an uninitialised memory included, no two indices at
which `getCardByIndex` succeeds yield the same bytes. -/
theorem uniqueness_reachable (s : AccessDatabase) (cs : List Call)
    (h0 : (s.initialized = false ∧ ¬ Sentinel s.EEPROM.data) ∨
      (Sentinel s.EEPROM.data ∧ countOf s.EEPROM.data ≤ MAX_CARDS ∧
        Distinct s.EEPROM.data)) :
    (cs ≠ [] ∨ Sentinel s.EEPROM.data →
      Sentinel (runCalls cs s).EEPROM.data ∧
      ∀ i, i < countOf (runCalls cs s).EEPROM.data →
        ∀ k, k < countOf (runCalls cs s).EEPROM.data →
          SameRecord (runCalls cs s).EEPROM.data i k → i = k) ∧
    (∀ (i k : Byte) (out out' : Nat → Byte),
      (getCardByIndex (runCalls cs s) i out).1 = true →
      (getCardByIndex (runCalls cs s) k out').1 = true →
      (∀ j, j < UID_SIZE →
        (getCardByIndex (runCalls cs s) i out).2.1 j =
          (getCardByIndex (runCalls cs s) k out').2.1 j) →
      i = k) := by
  have hstep : ∀ (c : Call) (s : AccessDatabase), Sentinel s.EEPROM.data →
      Distinct s.EEPROM.data → Distinct (c.run s).EEPROM.data :=
    fun c s hs hp => (run_preserves c s hs).2.2 hp
  have hinit : ∀ m : Nat → Byte, ¬ Sentinel m →
      Distinct (Function.update (Function.update m EEPROM_INIT_ADDR 0xAA)
        EEPROM_COUNT_ADDR 0) := by
    intro m _ i hi
    simp [countOf] at hi
  have hstart : LogicalInv Distinct s := by
    rcases h0 with ⟨hf, hs⟩ | ⟨hs, -, hd⟩
    · exact logicalInv_of_uninitialised _ hinit s hf hs
    · exact logicalInv_of_sentinel _ s hs hd
  obtain ⟨h1, h2⟩ := runCalls_logicalInv _ hstep hinit cs s hstart
  refine ⟨?_, ?_⟩
  · intro hcase
    by_cases hne : cs = []
    · subst hne
      rcases hcase with h | h
      · exact absurd rfl h
      · rcases h0 with ⟨-, hs⟩ | ⟨hs, -, hd⟩
        · exact absurd h hs
        · exact ⟨hs, hd⟩
    · exact h2 hne
  · intro i k out out' hi hk hsame
    rw [← getCardByIndex_ensure] at hi hk
    rw [getCardByIndex_fst _ _ _ h1.1] at hi hk
    have hi' : i.val < countOf (ensureInitialized (runCalls cs s)).EEPROM.data := by
      simpa using hi
    have hk' : k.val < countOf (ensureInitialized (runCalls cs s)).EEPROM.data := by
      simpa using hk
    apply Fin.ext
    apply h1.2 i.val hi' k.val hk'
    intro j hj
    have := hsame j hj
    rw [← getCardByIndex_ensure (runCalls cs s) i, ← getCardByIndex_ensure (runCalls cs s) k,
      getCardByIndex_out _ _ _ h1.1, getCardByIndex_out _ _ _ h1.1,
      if_pos ⟨hi', hj⟩, if_pos ⟨hk', hj⟩] at this
    exact this

set_option maxRecDepth 8000 in
/-- A run over an erased memory that offers one UID twice and ends with the
three live records `1 2 3 4`, `9 10 11 12`, `13 14 15 16`: slots 0 and 1 differ
and the second offer of `1 2 3 4` was refused. -/
theorem uniqueness_reachable_witness :
    ((storeOf erasedImage).initialized = false ∧ ¬ Sentinel (storeOf erasedImage).EEPROM.data) ∧
    countOf (runCalls uniquenessCalls (storeOf erasedImage)).EEPROM.data = 3 ∧
    RecordIs (runCalls uniquenessCalls (storeOf erasedImage)).EEPROM.data 0 (uidOf 1 2 3 4) ∧
    RecordIs (runCalls uniquenessCalls (storeOf erasedImage)).EEPROM.data 1
      (uidOf 9 10 11 12) ∧
    RecordIs (runCalls uniquenessCalls (storeOf erasedImage)).EEPROM.data 2
      (uidOf 13 14 15 16) ∧
    (∀ i, i < countOf (runCalls uniquenessCalls (storeOf erasedImage)).EEPROM.data →
      ∀ k, k < countOf (runCalls uniquenessCalls (storeOf erasedImage)).EEPROM.data →
        SameRecord (runCalls uniquenessCalls (storeOf erasedImage)).EEPROM.data i k → i = k) :=
  ⟨by decide, by decide, by decide, by decide, by decide,
    ((uniqueness_reachable (storeOf erasedImage) uniquenessCalls (Or.inl (by decide))).1
      (Or.inl (List.cons_ne_nil _ _))).2⟩

/-- An erased memory with the flag unset, before any call: the persisted count
byte is 255 and the record slots 0 and 1, both below it, hold the same bytes
`FF FF FF FF`, so uniqueness does not hold after the empty sequence of
calls. -/
theorem uniqueness_fails_before_first_call :
    ((storeOf erasedImage).initialized = false ∧ ¬ Sentinel (storeOf erasedImage).EEPROM.data) ∧
    0 < countOf (runCalls [] (storeOf erasedImage)).EEPROM.data ∧
    1 < countOf (runCalls [] (storeOf erasedImage)).EEPROM.data ∧
    SameRecord (runCalls [] (storeOf erasedImage)).EEPROM.data 0 1 ∧
    ¬ Distinct (runCalls [] (storeOf erasedImage)).EEPROM.data :=
  ⟨by decide, by decide, by decide, by decide,
    fun h => absurd (h 0 (by decide) 1 (by decide) (by decide)) (by decide)⟩

/-! ## Capacity -/

/-- A successful `addCard` of `u` leaves absent every UID that was absent and
differs from `u`. -/
theorem addCard_keeps_absent (s : AccessDatabase) (u v : Nat → Byte)
    (hs : Sentinel s.EEPROM.data) (hc : countOf s.EEPROM.data < MAX_CARDS)
    (hn : (isCardAuthorized s u).1 = false) (huv : UidNe u v)
    (hv : ∀ k, k < countOf s.EEPROM.data → ¬ RecordIs s.EEPROM.data k v) :
    ∀ k, k < countOf (addCard s u).2.EEPROM.data →
      ¬ RecordIs (addCard s u).2.EEPROM.data k v := by
  obtain ⟨-, h2, h3, h4⟩ := addCard_added_image s u hs hc hn
  intro k hk hr
  rw [h2] at hk
  by_cases hk' : k < countOf s.EEPROM.data
  · apply hv k hk'
    intro j hj
    rw [← h3 k j hk' hj]
    exact hr j hj
  · have hk'' : k = countOf s.EEPROM.data := by omega
    subst hk''
    obtain ⟨j, hj, hne⟩ := huv
    apply hne
    rw [← h4 j hj, ← hr j hj]

/-- Inserting pairwise distinct UIDs, none of them present and all of them
fitting, adds every one of them. -/
theorem addCards_all_added (uids : List (Nat → Byte)) (s : AccessDatabase)
    (hs : Sentinel s.EEPROM.data)
    (hc : countOf s.EEPROM.data + uids.length ≤ MAX_CARDS)
    (hd : uids.Pairwise UidNe)
    (hnew : ∀ u, u ∈ uids → ∀ k, k < countOf s.EEPROM.data → ¬ RecordIs s.EEPROM.data k u) :
    (addCards uids s).1 = List.replicate uids.length CARD_ADDED ∧
    Sentinel (addCards uids s).2.EEPROM.data ∧
    countOf (addCards uids s).2.EEPROM.data = countOf s.EEPROM.data + uids.length ∧
    ∀ v, (∀ u, u ∈ uids → UidNe u v) →
      (∀ k, k < countOf s.EEPROM.data → ¬ RecordIs s.EEPROM.data k v) →
      ∀ k, k < countOf (addCards uids s).2.EEPROM.data →
        ¬ RecordIs (addCards uids s).2.EEPROM.data k v := by
  induction uids generalizing s with
  | nil =>
    refine ⟨rfl, hs, rfl, ?_⟩
    intro v _ hv
    exact hv
  | cons u us ih =>
    simp only [List.length_cons] at hc
    have hc' : countOf s.EEPROM.data < MAX_CARDS := by omega
    have hn : (isCardAuthorized s u).1 = false :=
      (isCardAuthorized_false_iff s u hs).2 (hnew u (List.mem_cons_self _ _))
    have hm := ensureInitialized_data_of_sentinel s hs
    have hfst := addCard_added_fst s u hn (by rw [hm]; exact hc')
    obtain ⟨h1, h2, -, -⟩ := addCard_added_image s u hs hc' hn
    rw [List.pairwise_cons] at hd
    have keep := addCard_keeps_absent s u
    obtain ⟨i1, i2, i3, i4⟩ := ih (addCard s u).2 h1 (by rw [h2]; omega) hd.2
      (fun w hw => keep w hs hc' hn (hd.1 w hw) (hnew w (List.mem_cons_of_mem _ hw)))
    refine ⟨?_, i2, ?_, ?_⟩
    · simp only [addCards, List.length_cons, List.replicate_succ, hfst, i1]
    · simp only [addCards, List.length_cons]
      rw [i3, h2]; omega
    · intro v hne hv
      exact i4 v (fun w hw => hne w (List.mem_cons_of_mem _ hw))
        (keep v hs hc' hn (hne u (List.mem_cons_self _ _)) hv)

/-- The capacity property with the UIDs given as the first `MAX_CARDS` and the
last one. -/
theorem addCards_then_full (s : AccessDatabase) (uids : List (Nat → Byte)) (last : Nat → Byte)
    (hs : Sentinel s.EEPROM.data) (h0 : countOf s.EEPROM.data = 0)
    (hlen : uids.length = MAX_CARDS) (hd : (uids ++ [last]).Pairwise UidNe) :
    (addCards uids s).1 = List.replicate MAX_CARDS CARD_ADDED ∧
    (getCardCount (addCards uids s).2).1.val = MAX_CARDS ∧
    (addCard (addCards uids s).2 last).1 = DATABASE_FULL ∧
    (getCardCount (addCard (addCards uids s).2 last).2).1.val = MAX_CARDS := by
  rw [List.pairwise_append] at hd
  obtain ⟨hd1, -, hd3⟩ := hd
  obtain ⟨i1, i2, i3, i4⟩ := addCards_all_added uids s hs (by rw [h0, hlen]; omega) hd1
    (by intro u _ k hk; omega)
  rw [h0, Nat.zero_add, hlen] at i3
  have hlast : (isCardAuthorized (addCards uids s).2 last).1 = false :=
    (isCardAuthorized_false_iff _ _ i2).2
      (i4 last (fun u hu => hd3 u hu last (List.mem_singleton_self _))
        (by intro k hk; omega))
  have hm := ensureInitialized_data_of_sentinel _ i2
  have hfull := addCard_of_full (addCards uids s).2 last hlast (by rw [hm, i3])
  have hunch := (addCard_rejected_image (addCards uids s).2 last i2
    (Or.inr (by rw [hfull]))).1
  refine ⟨by rw [i1, hlen], by rw [getCardCount_val _ i2, i3], by rw [hfull], ?_⟩
  rw [(view_eq_of_data_eq _ _ i2 hunch).1, getCardCount_val _ i2, i3]

theorem addCards_append (xs ys : List (Nat → Byte)) (s : AccessDatabase) :
    addCards (xs ++ ys) s =
      ((addCards xs s).1 ++ (addCards ys (addCards xs s).2).1,
        (addCards ys (addCards xs s).2).2) := by
  induction xs generalizing s with
  | nil => rfl
  | cons x xs ih => simp [addCards, ih]

/-- C9: for every list of `MAX_CARDS + 1` pairwise distinct UIDs, starting from
an empty initialised store, `addCard` on the first `MAX_CARDS` in order returns
`CARD_ADDED` each time and leaves `getCardCount` at `MAX_CARDS`; `addCard` on
the last one then returns `DATABASE_FULL` and `getCardCount` is still
`MAX_CARDS`. -/
theorem capacity_enforced (s : AccessDatabase) (uids : List (Nat → Byte))
    (hs : Sentinel s.EEPROM.data) (h0 : countOf s.EEPROM.data = 0)
    (hlen : uids.length = MAX_CARDS + 1) (hd : uids.Pairwise UidNe) :
    (addCards (uids.take MAX_CARDS) s).1 = List.replicate MAX_CARDS CARD_ADDED ∧
    (getCardCount (addCards (uids.take MAX_CARDS) s).2).1.val = MAX_CARDS ∧
    (addCards uids s).1 = List.replicate MAX_CARDS CARD_ADDED ++ [DATABASE_FULL] ∧
    (getCardCount (addCards uids s).2).1.val = MAX_CARDS := by
  have hsplit : uids = uids.take MAX_CARDS ++ uids.drop MAX_CARDS :=
    (List.take_append_drop MAX_CARDS uids).symm
  have hdrop : (uids.drop MAX_CARDS).length = 1 := by
    rw [List.length_drop, hlen]; simp
  obtain ⟨last, hl⟩ := List.length_eq_one.1 hdrop
  have htake : (uids.take MAX_CARDS).length = MAX_CARDS := by
    rw [List.length_take, hlen]; simp
  rw [hl] at hsplit
  have hd' : (uids.take MAX_CARDS ++ [last]).Pairwise UidNe := by
    rw [← hsplit]; exact hd
  obtain ⟨h1, h2, h3, h4⟩ := addCards_then_full s (uids.take MAX_CARDS) last hs h0 htake hd'
  refine ⟨h1, h2, ?_, ?_⟩
  · conv_lhs => rw [hsplit]
    rw [addCards_append, h1]
    simp only [addCards, h3]
  · conv_lhs => rw [hsplit]
    rw [addCards_append]
    simp only [addCards]
    exact h4

/-- Twenty-one distinct UIDs offered to the empty store: the last is refused. -/
theorem capacity_enforced_witness :
    Sentinel (storeOf emptyImage).EEPROM.data ∧
    countOf (storeOf emptyImage).EEPROM.data = 0 ∧
    twentyOneUids.length = MAX_CARDS + 1 ∧
    twentyOneUids.Pairwise UidNe ∧
    (addCards twentyOneUids (storeOf emptyImage)).1
      = List.replicate MAX_CARDS CARD_ADDED ++ [DATABASE_FULL] :=
  ⟨by decide, by decide, by decide, by decide,
    (capacity_enforced (storeOf emptyImage) twentyOneUids (by decide) (by decide)
      (by decide) (by decide)).2.2.1⟩

/-! ## First-run initialisation -/

/-- C10: on a memory whose sentinel is not `0xAA`, `begin` (which is
`initializeEEPROM` after the region reservation) leaves the sentinel at `0xAA`
and the count byte at 0, changes no byte at an address of 2 or more, commits,
and sets the `initialized` flag; afterwards `getCardCount` is 0 and
`isCardAuthorized` is false for every UID. -/
theorem begin_first_run (s t : AccessDatabase) (hs : ¬ Sentinel s.EEPROM.data)
    (ht : t = s.begin ∨ t = initializeEEPROM s) :
    t.EEPROM.data EEPROM_INIT_ADDR = 0xAA ∧
    t.EEPROM.data EEPROM_COUNT_ADDR = 0 ∧
    (∀ a, 2 ≤ a → t.EEPROM.data a = s.EEPROM.data a) ∧
    t.EEPROM.flash = t.EEPROM.data ∧
    t.initialized = true ∧
    (getCardCount t).1 = 0 ∧
    ∀ x : Nat → Byte, (isCardAuthorized t x).1 = false := by
  have ht' : t = initializeEEPROM s := by
    rcases ht with h | h
    · rw [h]; rfl
    · exact h
  subst ht'
  have hd := initializeEEPROM_data_of_not_sentinel s hs
  have hsent := initializeEEPROM_sentinel s
  have hcount : (initializeEEPROM s).EEPROM.data EEPROM_COUNT_ADDR = 0 := by
    rw [hd]; simp
  have hc0 : countOf (initializeEEPROM s).EEPROM.data = 0 := by
    unfold countOf; rw [hcount]; rfl
  refine ⟨hsent, hcount, ?_, ?_, initializeEEPROM_initialized s, ?_, ?_⟩
  · intro a ha
    rw [hd, Function.update_noteq (by simp [EEPROM_COUNT_ADDR]; omega),
      Function.update_noteq (by simp [EEPROM_INIT_ADDR]; omega)]
  · unfold Sentinel at hs
    simp [initializeEEPROM, hs]
  · apply Fin.ext
    rw [getCardCount_val _ hsent, hc0]; rfl
  · intro x
    rw [isCardAuthorized_false_iff _ _ hsent]
    intro k hk
    omega

/-- An erased memory, all bytes `0xFF`, after `begin`. -/
theorem begin_first_run_witness :
    ¬ Sentinel (storeOf erasedImage).EEPROM.data ∧
    (storeOf erasedImage).begin.EEPROM.data EEPROM_INIT_ADDR = 0xAA ∧
    (storeOf erasedImage).begin.EEPROM.data EEPROM_COUNT_ADDR = 0 ∧
    (storeOf erasedImage).begin.EEPROM.data 2 = 0xFF ∧
    (isCardAuthorized (storeOf erasedImage).begin (uidOf 0xFF 0xFF 0xFF 0xFF)).1 = false :=
  ⟨by decide,
    (begin_first_run (storeOf erasedImage) _ (by decide) (Or.inl rfl)).1,
    (begin_first_run (storeOf erasedImage) _ (by decide) (Or.inl rfl)).2.1,
    by decide,
    (begin_first_run (storeOf erasedImage) _ (by decide) (Or.inl rfl)).2.2.2.2.2.2 _⟩

/-! ## Re-opening, lookup, enumeration and clearing -/

/-- C11: for every memory image, `begin` twice leaves the same bytes (write
buffer and durable image) as `begin` once; and when the sentinel is already
`0xAA`, `begin` changes no byte at all, so `getCardCount` and every
`getCardByIndex` answer as before. -/
theorem begin_idempotent (s : AccessDatabase) :
    s.begin.begin.EEPROM.data = s.begin.EEPROM.data ∧
    s.begin.begin.EEPROM.flash = s.begin.EEPROM.flash ∧
    (Sentinel s.EEPROM.data →
      s.begin.EEPROM.data = s.EEPROM.data ∧
      s.begin.EEPROM.flash = s.EEPROM.flash ∧
      (getCardCount s.begin).1 = (getCardCount s).1 ∧
      ∀ (index : Byte) (out : Nat → Byte),
        (getCardByIndex s.begin index out).1 = (getCardByIndex s index out).1 ∧
        (getCardByIndex s.begin index out).2.1 = (getCardByIndex s index out).2.1) := by
  have h1 : Sentinel s.begin.EEPROM.data := initializeEEPROM_sentinel s
  refine ⟨initializeEEPROM_data_of_sentinel _ h1, initializeEEPROM_flash_of_sentinel _ h1, ?_⟩
  intro hs
  have hd : s.begin.EEPROM.data = s.EEPROM.data := initializeEEPROM_data_of_sentinel s hs
  have hv := view_eq_of_data_eq s s.begin hs hd
  exact ⟨hd, initializeEEPROM_flash_of_sentinel s hs, hv.1, hv.2⟩

/-- Re-opening the store of three records changes nothing; opening an erased
memory twice is opening it once. -/
theorem begin_idempotent_witness :
    Sentinel (storeOf threeImage).EEPROM.data ∧
    (storeOf threeImage).begin.EEPROM.data = threeImage ∧
    (storeOf erasedImage).begin.begin.EEPROM.data = (storeOf erasedImage).begin.EEPROM.data :=
  ⟨by decide, ((begin_idempotent (storeOf threeImage)).2.2 (by decide)).1,
    (begin_idempotent (storeOf erasedImage)).1⟩

/-- C12: on an initialised store, whatever its count byte, `isCardAuthorized`
is true exactly when some index below `getCardCount` has its four bytes, at
offsets `2 + 4 i .. 2 + 4 i + 3`, equal to the UID byte for byte; it is false
when the count is 0; and it changes no byte. -/
theorem isCardAuthorized_spec (s : AccessDatabase) (uid : Nat → Byte)
    (hs : Sentinel s.EEPROM.data) :
    ((isCardAuthorized s uid).1 = true ↔
      ∃ i, i < (getCardCount s).1.val ∧
        ∀ j, j < 4 → s.EEPROM.data (2 + 4 * i + j) = uid j) ∧
    ((getCardCount s).1.val = 0 → (isCardAuthorized s uid).1 = false) ∧
    (isCardAuthorized s uid).2.EEPROM.data = s.EEPROM.data ∧
    (isCardAuthorized s uid).2.EEPROM.flash = s.EEPROM.flash := by
  have hm := ensureInitialized_data_of_sentinel s hs
  have hf := ensureInitialized_flash_of_sentinel s hs
  have hrec : ∀ i, RecordIs s.EEPROM.data i uid ↔
      ∀ j, j < 4 → s.EEPROM.data (2 + 4 * i + j) = uid j := by
    intro i
    unfold RecordIs
    simp only [UID_SIZE, EEPROM_CARDS_START, Nat.mul_comm i 4]
  refine ⟨?_, ?_, by rw [isCardAuthorized_data, hm], by rw [isCardAuthorized_flash, hf]⟩
  · rw [isCardAuthorized_true_iff s uid hs, getCardCount_val s hs]
    constructor
    · rintro ⟨k, hk, hr⟩; exact ⟨k, hk, (hrec k).1 hr⟩
    · rintro ⟨k, hk, hr⟩; exact ⟨k, hk, (hrec k).2 hr⟩
  · intro h0
    rw [getCardCount_val s hs] at h0
    rw [isCardAuthorized_false_iff s uid hs]
    intro k hk; omega

/-- The third record of the store of three records is found, at index 2. -/
theorem isCardAuthorized_spec_witness :
    Sentinel (storeOf threeImage).EEPROM.data ∧
    (isCardAuthorized (storeOf threeImage) (uidOf 9 10 11 12)).1 = true ∧
    (isCardAuthorized (storeOf threeImage) (uidOf 9 10 11 12)).2.EEPROM.data = threeImage :=
  ⟨by decide,
    ((isCardAuthorized_spec (storeOf threeImage) (uidOf 9 10 11 12) (by decide)).1).2
      ⟨2, by decide, by decide⟩,
    (isCardAuthorized_spec (storeOf threeImage) (uidOf 9 10 11 12) (by decide)).2.2.1⟩

/-- C13: on an initialised store, `getCardByIndex` returns false exactly when
the index is at least `getCardCount`, and then leaves the output buffer as it
was; otherwise it returns true with the output set to the four bytes at
offsets `2 + 4 index .. 2 + 4 index + 3`; and it changes no byte. -/
theorem getCardByIndex_spec (s : AccessDatabase) (index : Byte) (uid : Nat → Byte)
    (hs : Sentinel s.EEPROM.data) :
    ((getCardByIndex s index uid).1 = false ↔ (getCardCount s).1.val ≤ index.val) ∧
    ((getCardCount s).1.val ≤ index.val → (getCardByIndex s index uid).2.1 = uid) ∧
    (index.val < (getCardCount s).1.val →
      (getCardByIndex s index uid).1 = true ∧
      ∀ j, j < 4 →
        (getCardByIndex s index uid).2.1 j = s.EEPROM.data (2 + 4 * index.val + j)) ∧
    (getCardByIndex s index uid).2.2.EEPROM.data = s.EEPROM.data ∧
    (getCardByIndex s index uid).2.2.EEPROM.flash = s.EEPROM.flash := by
  have hm := ensureInitialized_data_of_sentinel s hs
  have hf := ensureInitialized_flash_of_sentinel s hs
  have hcv := getCardCount_val s hs
  refine ⟨?_, ?_, ?_, by rw [getCardByIndex_data, hm], by rw [getCardByIndex_flash, hf]⟩
  · rw [getCardByIndex_fst s index uid hs, hcv]
    simp
  · intro hge
    rw [hcv] at hge
    funext x
    rw [getCardByIndex_out s index uid hs, if_neg (by omega)]
  · intro hlt
    rw [hcv] at hlt
    refine ⟨by rw [getCardByIndex_fst s index uid hs]; simp [hlt], ?_⟩
    intro j hj
    rw [getCardByIndex_out s index uid hs, if_pos ⟨hlt, hj⟩]
    simp only [UID_SIZE, EEPROM_CARDS_START, Nat.mul_comm index.val 4]

/-- Index 3 of the store of three records is absent, index 2 is present. -/
theorem getCardByIndex_spec_witness :
    Sentinel (storeOf threeImage).EEPROM.data ∧
    (getCardByIndex (storeOf threeImage) 3 (uidOf 7 7 7 7)).1 = false ∧
    (getCardByIndex (storeOf threeImage) 2 (uidOf 7 7 7 7)).1 = true ∧
    (getCardByIndex (storeOf threeImage) 2 (uidOf 7 7 7 7)).2.1 0 = 9 :=
  ⟨by decide,
    ((getCardByIndex_spec (storeOf threeImage) 3 (uidOf 7 7 7 7) (by decide)).1).2 (by decide),
    ((getCardByIndex_spec (storeOf threeImage) 2 (uidOf 7 7 7 7) (by decide)).2.2.1
      (by decide)).1,
    by decide⟩

/-- C14: on an initialised store `clearAllCards` sets the count byte to 0,
changes no other byte and commits; afterwards `getCardCount` is 0,
`isCardAuthorized` is false for every UID and `getCardByIndex` reports absent
for every index. -/
theorem clearAllCards_spec (s : AccessDatabase) (hs : Sentinel s.EEPROM.data) :
    (clearAllCards s).EEPROM.data EEPROM_COUNT_ADDR = 0 ∧
    (∀ a, a ≠ EEPROM_COUNT_ADDR → (clearAllCards s).EEPROM.data a = s.EEPROM.data a) ∧
    (clearAllCards s).EEPROM.flash = (clearAllCards s).EEPROM.data ∧
    (getCardCount (clearAllCards s)).1 = 0 ∧
    (∀ x : Nat → Byte, (isCardAuthorized (clearAllCards s) x).1 = false) ∧
    ∀ (i : Byte) (out : Nat → Byte),
      (getCardByIndex (clearAllCards s) i out).1 = false ∧
      (getCardByIndex (clearAllCards s) i out).2.1 = out := by
  obtain ⟨h1, h2, h3⟩ := clearAllCards_image s hs
  refine ⟨?_, h3, rfl, ?_, ?_, ?_⟩
  · rw [clearAllCards_data]; simp
  · apply Fin.ext
    rw [getCardCount_val _ h1, h2]; rfl
  · intro x
    rw [isCardAuthorized_false_iff _ _ h1]
    intro k hk; omega
  · intro i out
    refine ⟨?_, ?_⟩
    · rw [getCardByIndex_fst _ _ _ h1, h2]; simp
    · funext x
      rw [getCardByIndex_out _ _ _ h1, if_neg (by omega)]

/-- Clearing the store of three records: the record bytes stay, the records
are gone. -/
theorem clearAllCards_spec_witness :
    Sentinel (storeOf threeImage).EEPROM.data ∧
    (isCardAuthorized (storeOf threeImage) (uidOf 5 6 7 8)).1 = true ∧
    (clearAllCards (storeOf threeImage)).EEPROM.data 6 = 5 ∧
    (isCardAuthorized (clearAllCards (storeOf threeImage)) (uidOf 5 6 7 8)).1 = false :=
  ⟨by decide, by decide, by decide,
    (clearAllCards_spec (storeOf threeImage) (by decide)).2.2.2.2.1 _⟩

/-! ## Insert then look up -/

theorem isCardAuthorized_iff_of_initialized (t : AccessDatabase) (x : Nat → Byte)
    (ht : t.initialized = true) :
    (isCardAuthorized t x).1 = true ↔
      ∃ k, k < countOf t.EEPROM.data ∧ RecordIs t.EEPROM.data k x := by
  rw [isCardAuthorized_iff, ensureInitialized_of_initialized t ht]

/-- The state and answer of `addCard`, case by case, on any state: refused
calls keep the image that the lazy initialisation left, an accepted call puts
the UID in the slot at the old count. -/
theorem addCard_cases (s : AccessDatabase) (x : Nat → Byte) :
    ((isCardAuthorized s x).1 = true ∧ (addCard s x).1 = CARD_EXISTS ∧
      (addCard s x).2.EEPROM.data = (ensureInitialized s).EEPROM.data) ∨
    ((isCardAuthorized s x).1 = false ∧
      MAX_CARDS ≤ countOf (ensureInitialized s).EEPROM.data ∧
      (addCard s x).1 = DATABASE_FULL ∧
      (addCard s x).2.EEPROM.data = (ensureInitialized s).EEPROM.data) ∨
    ((isCardAuthorized s x).1 = false ∧
      countOf (ensureInitialized s).EEPROM.data < MAX_CARDS ∧
      (addCard s x).1 = CARD_ADDED ∧
      countOf (addCard s x).2.EEPROM.data = countOf (ensureInitialized s).EEPROM.data + 1 ∧
      RecordIs (addCard s x).2.EEPROM.data (countOf (ensureInitialized s).EEPROM.data) x) := by
  by_cases ha : (isCardAuthorized s x).1 = true
  · left
    refine ⟨ha, by rw [addCard_of_authorized s x ha], ?_⟩
    rw [addCard_of_authorized s x ha]
    exact isCardAuthorized_data s x
  · have ha' : (isCardAuthorized s x).1 = false := by simpa using ha
    right
    by_cases hc : MAX_CARDS ≤ countOf (ensureInitialized s).EEPROM.data
    · left
      refine ⟨ha', hc, by rw [addCard_of_full s x ha' hc], ?_⟩
      rw [addCard_of_full s x ha' hc]
      show (getCardCount (isCardAuthorized s x).2).2.EEPROM.data = _
      rw [getCardCount_data, ensureInitialized_isCardAuthorized, isCardAuthorized_data]
    · right
      have hc' : countOf (ensureInitialized s).EEPROM.data < MAX_CARDS := Nat.not_le.1 hc
      have hd := addCard_added_data s x ha' hc'
      have hc20 : countOf (ensureInitialized s).EEPROM.data < 20 := hc'
      refine ⟨ha', hc', addCard_added_fst s x ha' hc', ?_, ?_⟩
      · have h1 := hd EEPROM_COUNT_ADDR
        rw [if_pos rfl] at h1
        unfold countOf at hc20 h1 ⊢
        rw [h1, toUint8_val]
        omega
      · intro j hj
        rw [hd, if_neg (by simp [EEPROM_COUNT_ADDR, EEPROM_CARDS_START]; omega),
          if_pos (by omega)]
        congr 1
        omega

/-- C15, as amended: on every state, after `addCard x` has been called
`isCardAuthorized x` is true unless the call returned `DATABASE_FULL`, and in
that case it is false. -/
theorem addCard_round_trip (s : AccessDatabase) (x : Nat → Byte) :
    ((addCard s x).1 ≠ DATABASE_FULL → (isCardAuthorized (addCard s x).2 x).1 = true) ∧
    ((addCard s x).1 = DATABASE_FULL → (isCardAuthorized (addCard s x).2 x).1 = false) := by
  have hinit := addCard_initialized s x
  have hiff := isCardAuthorized_iff_of_initialized (addCard s x).2 x hinit
  have hold := isCardAuthorized_iff s x
  rcases addCard_cases s x with ⟨ha, hr, hd⟩ | ⟨ha, -, hr, hd⟩ | ⟨-, -, hr, hc, hrec⟩
  · have ht : (isCardAuthorized (addCard s x).2 x).1 = true := by
      rw [hiff, hd]; exact hold.1 ha
    refine ⟨fun _ => ht, fun h => ?_⟩
    rw [hr] at h
    exact absurd h (by decide)
  · have hf : (isCardAuthorized (addCard s x).2 x).1 = false := by
      rw [← Bool.not_eq_true, hiff, hd, ← hold, ha]
      simp
    exact ⟨fun h => absurd hr h, fun _ => hf⟩
  · have ht : (isCardAuthorized (addCard s x).2 x).1 = true := by
      rw [hiff]
      exact ⟨_, by rw [hc]; omega, hrec⟩
    refine ⟨fun _ => ht, fun h => ?_⟩
    rw [hr] at h
    exact absurd h (by decide)

/-- A new UID offered to the store of three records is found afterwards. -/
theorem addCard_round_trip_witness :
    (addCard (storeOf threeImage) (uidOf 9 9 9 9)).1 ≠ DATABASE_FULL ∧
    (isCardAuthorized (addCard (storeOf threeImage) (uidOf 9 9 9 9)).2 (uidOf 9 9 9 9)).1
      = true :=
  ⟨by decide, (addCard_round_trip (storeOf threeImage) (uidOf 9 9 9 9)).1 (by decide)⟩

/-- A new UID offered to a full store is refused with `DATABASE_FULL` and is not
found afterwards: the round trip does not hold on every state. -/
theorem addCard_round_trip_fails_when_full :
    (addCard (storeOf fullImage) (uidOf 1 1 1 1)).1 = DATABASE_FULL ∧
    ¬ (isCardAuthorized (addCard (storeOf fullImage) (uidOf 1 1 1 1)).2 (uidOf 1 1 1 1)).1
      = true := by
  decide

/-! ## The crash window of an insertion -/

/-- `addCard`, on the path that adds, is the intermediate state followed by the
write of the count byte and the commit. -/
theorem addCard_eq_of_added (s : AccessDatabase) (uid : Nat → Byte)
    (h : (isCardAuthorized s uid).1 = false)
    (hc : countOf (ensureInitialized s).EEPROM.data < MAX_CARDS) :
    addCard s uid =
      (CARD_ADDED,
        { addCardAfterUidWrite s uid with
          EEPROM := ((addCardAfterUidWrite s uid).EEPROM.write EEPROM_COUNT_ADDR
            (toUint8 (((getCardCount s).1.val : Int) + 1))).commit }) := by
  have e1 : (getCardCount (isCardAuthorized s uid).2).1 = (getCardCount s).1 := by
    rw [getCardCount_fst, ensureInitialized_isCardAuthorized, isCardAuthorized_data,
      getCardCount_fst]
  have hc' : ¬ MAX_CARDS ≤ ((getCardCount s).1).val := by
    rw [getCardCount_fst]; exact Nat.not_le.2 hc
  simp only [addCard, addCardAfterUidWrite, isCardAuthorized_ensure, h, Bool.false_eq_true,
    if_false, e1, ge_iff_le, hc']

theorem addCardAfterUidWrite_data (s : AccessDatabase) (uid : Nat → Byte) (a : Nat) :
    (addCardAfterUidWrite s uid).EEPROM.data a =
      if EEPROM_CARDS_START + countOf (ensureInitialized s).EEPROM.data * UID_SIZE ≤ a ∧
          a < EEPROM_CARDS_START + countOf (ensureInitialized s).EEPROM.data * UID_SIZE
            + UID_SIZE
      then uid (a - (EEPROM_CARDS_START + countOf (ensureInitialized s).EEPROM.data * UID_SIZE))
      else (ensureInitialized s).EEPROM.data a := by
  have e1 : (getCardCount (isCardAuthorized s uid).2).1
      = (ensureInitialized s).EEPROM.data EEPROM_COUNT_ADDR := by
    rw [getCardCount_fst, ensureInitialized_isCardAuthorized, isCardAuthorized_data]
  have e2 : (getCardCount (isCardAuthorized s uid).2).2.EEPROM.data
      = (ensureInitialized s).EEPROM.data := by
    rw [getCardCount_data, ensureInitialized_isCardAuthorized, isCardAuthorized_data]
  simp only [addCardAfterUidWrite, isCardAuthorized_ensure]
  rw [writeUidLoop_data _ _ _ 0 _ (by simp), e2, e1]
  simp only [countOf, Nat.add_zero]

theorem addCardAfterUidWrite_flash (s : AccessDatabase) (uid : Nat → Byte) :
    (addCardAfterUidWrite s uid).EEPROM.flash = (ensureInitialized s).EEPROM.flash := by
  simp only [addCardAfterUidWrite, isCardAuthorized_ensure, writeUidLoop_flash]
  rw [getCardCount_flash, ensureInitialized_isCardAuthorized, isCardAuthorized_flash]

/-- C16: on an initialised store with fewer than `MAX_CARDS` records that does
not contain the UID, the memory in the middle of `addCard`, after the four UID
bytes are written into slot `count` and before the count byte is written, has
the sentinel, the count byte and every byte of the records below `count` as
before the call, and its durable image is untouched; so `getCardCount`, every
`getCardByIndex` and every `isCardAuthorized` answer on it as before the call. -/
theorem addCard_crash_window (s : AccessDatabase) (uid : Nat → Byte)
    (hs : Sentinel s.EEPROM.data) (hc : countOf s.EEPROM.data < MAX_CARDS)
    (hn : (isCardAuthorized s uid).1 = false) :
    addCard s uid =
      (CARD_ADDED,
        { addCardAfterUidWrite s uid with
          EEPROM := ((addCardAfterUidWrite s uid).EEPROM.write EEPROM_COUNT_ADDR
            (toUint8 (((getCardCount s).1.val : Int) + 1))).commit }) ∧
    (addCardAfterUidWrite s uid).EEPROM.data EEPROM_INIT_ADDR
      = s.EEPROM.data EEPROM_INIT_ADDR ∧
    (addCardAfterUidWrite s uid).EEPROM.data EEPROM_COUNT_ADDR
      = s.EEPROM.data EEPROM_COUNT_ADDR ∧
    (∀ i j, i < countOf s.EEPROM.data → j < UID_SIZE →
      (addCardAfterUidWrite s uid).EEPROM.data (EEPROM_CARDS_START + i * UID_SIZE + j)
        = s.EEPROM.data (EEPROM_CARDS_START + i * UID_SIZE + j)) ∧
    (addCardAfterUidWrite s uid).EEPROM.flash = s.EEPROM.flash ∧
    (getCardCount (addCardAfterUidWrite s uid)).1 = (getCardCount s).1 ∧
    (∀ (index : Byte) (out : Nat → Byte),
      (getCardByIndex (addCardAfterUidWrite s uid) index out).1
        = (getCardByIndex s index out).1 ∧
      (getCardByIndex (addCardAfterUidWrite s uid) index out).2.1
        = (getCardByIndex s index out).2.1) ∧
    ∀ x : Nat → Byte,
      (isCardAuthorized (addCardAfterUidWrite s uid) x).1 = (isCardAuthorized s x).1 := by
  have hm := ensureInitialized_data_of_sentinel s hs
  have hf := ensureInitialized_flash_of_sentinel s hs
  have hd := addCardAfterUidWrite_data s uid
  rw [hm] at hd
  have h0 : (addCardAfterUidWrite s uid).EEPROM.data EEPROM_INIT_ADDR
      = s.EEPROM.data EEPROM_INIT_ADDR := by
    rw [hd, if_neg (by simp [EEPROM_INIT_ADDR, EEPROM_CARDS_START])]
  have h1 : (addCardAfterUidWrite s uid).EEPROM.data EEPROM_COUNT_ADDR
      = s.EEPROM.data EEPROM_COUNT_ADDR := by
    rw [hd, if_neg (by simp [EEPROM_COUNT_ADDR, EEPROM_CARDS_START]; omega)]
  have hrec : ∀ i j, i < countOf s.EEPROM.data → j < UID_SIZE →
      (addCardAfterUidWrite s uid).EEPROM.data (EEPROM_CARDS_START + i * UID_SIZE + j)
        = s.EEPROM.data (EEPROM_CARDS_START + i * UID_SIZE + j) := by
    intro i j hi hj
    rw [hd, if_neg (by simp only [UID_SIZE] at *; omega)]
  have hsent : Sentinel (addCardAfterUidWrite s uid).EEPROM.data := by
    unfold Sentinel; rw [h0]; exact hs
  have hcnt : countOf (addCardAfterUidWrite s uid).EEPROM.data = countOf s.EEPROM.data := by
    unfold countOf; rw [h1]
  refine ⟨addCard_eq_of_added s uid hn (by rw [hm]; exact hc), h0, h1, hrec,
    by rw [addCardAfterUidWrite_flash, hf], ?_, ?_, ?_⟩
  · apply Fin.ext
    rw [getCardCount_val _ hsent, getCardCount_val s hs, hcnt]
  · intro index out
    refine ⟨?_, ?_⟩
    · rw [getCardByIndex_fst _ _ _ hsent, getCardByIndex_fst _ _ _ hs, hcnt]
    · funext x
      rw [getCardByIndex_out _ _ _ hsent, getCardByIndex_out _ _ _ hs, hcnt]
      by_cases hx : index.val < countOf s.EEPROM.data ∧ x < UID_SIZE
      · rw [if_pos hx, if_pos hx]
        exact hrec index.val x hx.1 hx.2
      · rw [if_neg hx, if_neg hx]
  · intro x
    rw [Bool.eq_iff_iff, isCardAuthorized_true_iff _ _ hsent, isCardAuthorized_true_iff _ _ hs,
      hcnt]
    constructor
    · rintro ⟨k, hk, hr⟩
      exact ⟨k, hk, fun j hj => by rw [← hrec k j hk hj]; exact hr j hj⟩
    · rintro ⟨k, hk, hr⟩
      exact ⟨k, hk, fun j hj => by rw [hrec k j hk hj]; exact hr j hj⟩

/-- The store of three records in the middle of adding `9 9 9 9`: the bytes are
in slot 3, the count is still 3 and the UID is not yet found. -/
theorem addCard_crash_window_witness :
    Sentinel (storeOf threeImage).EEPROM.data ∧
    countOf (storeOf threeImage).EEPROM.data < MAX_CARDS ∧
    (isCardAuthorized (storeOf threeImage) (uidOf 9 9 9 9)).1 = false ∧
    (addCardAfterUidWrite (storeOf threeImage) (uidOf 9 9 9 9)).EEPROM.data 14 = 9 ∧
    (getCardCount (addCardAfterUidWrite (storeOf threeImage) (uidOf 9 9 9 9))).1
      = (getCardCount (storeOf threeImage)).1 ∧
    (isCardAuthorized (addCardAfterUidWrite (storeOf threeImage) (uidOf 9 9 9 9))
      (uidOf 9 9 9 9)).1 = (isCardAuthorized (storeOf threeImage) (uidOf 9 9 9 9)).1 :=
  ⟨by decide, by decide, by decide, by decide,
    (addCard_crash_window (storeOf threeImage) (uidOf 9 9 9 9) (by decide) (by decide)
      (by decide)).2.2.2.2.2.1,
    (addCard_crash_window (storeOf threeImage) (uidOf 9 9 9 9) (by decide) (by decide)
      (by decide)).2.2.2.2.2.2.2 _⟩

/-! ## Insert then remove -/

/-- C19: on an initialised store with fewer than `MAX_CARDS` records that does
not contain `x` (the records need not be distinct), `addCard x` returns
`CARD_ADDED`, the following `removeCard x` returns `CARD_REMOVED`, and
afterwards `getCardCount` and every `getCardByIndex` answer as before the
`addCard`. -/
theorem addCard_removeCard_identity (s : AccessDatabase) (x : Nat → Byte)
    (hs : Sentinel s.EEPROM.data) (hc : countOf s.EEPROM.data < MAX_CARDS)
    (hn : (isCardAuthorized s x).1 = false) :
    (addCard s x).1 = CARD_ADDED ∧
    (removeCard (addCard s x).2 x).1 = CARD_REMOVED ∧
    (getCardCount (removeCard (addCard s x).2 x).2).1 = (getCardCount s).1 ∧
    ∀ (index : Byte) (out : Nat → Byte),
      (getCardByIndex (removeCard (addCard s x).2 x).2 index out).1
        = (getCardByIndex s index out).1 ∧
      (getCardByIndex (removeCard (addCard s x).2 x).2 index out).2.1
        = (getCardByIndex s index out).2.1 := by
  have hm := ensureInitialized_data_of_sentinel s hs
  obtain ⟨h1, h2, h3, h4⟩ := addCard_added_image s x hs hc hn
  have hno := (isCardAuthorized_false_iff s x hs).1 hn
  have hmin : ∀ k', k' < countOf s.EEPROM.data →
      ¬ RecordIs (addCard s x).2.EEPROM.data k' x := by
    intro k' hk' hr
    apply hno k' hk'
    intro j hj
    rw [← h3 k' j hk' hj]
    exact hr j hj
  have hk : countOf s.EEPROM.data < countOf (addCard s x).2.EEPROM.data := by
    rw [h2]; omega
  obtain ⟨r1, r2, r3, -⟩ :=
    removeCard_found_image (addCard s x).2 x (countOf s.EEPROM.data) h1 hk h4 hmin
  have hm' := ensureInitialized_data_of_sentinel _ h1
  have hcnt : countOf (removeCard (addCard s x).2 x).2.EEPROM.data = countOf s.EEPROM.data := by
    omega
  refine ⟨addCard_added_fst s x hn (by rw [hm]; exact hc),
    (removeCard_found (addCard s x).2 x (countOf s.EEPROM.data) (by rw [hm']; exact hk)
      (by rw [hm']; exact h4) (by rw [hm']; exact hmin)).1, ?_, ?_⟩
  · apply Fin.ext
    rw [getCardCount_val _ r1, getCardCount_val s hs, hcnt]
  · intro index out
    refine ⟨?_, ?_⟩
    · rw [getCardByIndex_fst _ _ _ r1, getCardByIndex_fst _ _ _ hs, hcnt]
    · funext j
      rw [getCardByIndex_out _ _ _ r1, getCardByIndex_out _ _ _ hs, hcnt]
      by_cases hx : index.val < countOf s.EEPROM.data ∧ j < UID_SIZE
      · rw [if_pos hx, if_pos hx, r3 index.val j hx.1 hx.2]
        exact h3 index.val j hx.1 hx.2
      · rw [if_neg hx, if_neg hx]

/-- Adding `5 6 7 9` to the store of three records and removing it again. -/
theorem addCard_removeCard_identity_witness :
    Sentinel (storeOf threeImage).EEPROM.data ∧
    countOf (storeOf threeImage).EEPROM.data < MAX_CARDS ∧
    (isCardAuthorized (storeOf threeImage) (uidOf 5 6 7 9)).1 = false ∧
    (removeCard (addCard (storeOf threeImage) (uidOf 5 6 7 9)).2 (uidOf 5 6 7 9)).1
      = CARD_REMOVED ∧
    (getCardCount (removeCard (addCard (storeOf threeImage) (uidOf 5 6 7 9)).2
      (uidOf 5 6 7 9)).2).1 = (getCardCount (storeOf threeImage)).1 :=
  ⟨by decide, by decide, by decide,
    (addCard_removeCard_identity (storeOf threeImage) (uidOf 5 6 7 9) (by decide)
      (by decide) (by decide)).2.1,
    (addCard_removeCard_identity (storeOf threeImage) (uidOf 5 6 7 9) (by decide)
      (by decide) (by decide)).2.2.1⟩

/-! ## Durability -/

theorem initializeEEPROM_durable (s : AccessDatabase) (h : s.EEPROM.data = s.EEPROM.flash) :
    (initializeEEPROM s).EEPROM.data = (initializeEEPROM s).EEPROM.flash := by
  by_cases hs : Sentinel s.EEPROM.data
  · rw [initializeEEPROM_data_of_sentinel s hs, initializeEEPROM_flash_of_sentinel s hs]
    exact h
  · unfold Sentinel at hs
    simp [initializeEEPROM, hs]

theorem ensureInitialized_durable (s : AccessDatabase) (h : s.EEPROM.data = s.EEPROM.flash) :
    (ensureInitialized s).EEPROM.data = (ensureInitialized s).EEPROM.flash := by
  unfold ensureInitialized
  split_ifs
  · exact initializeEEPROM_durable s h
  · exact h

/-- The first slot below the count holding the UID, on the image left by the
lazy initialisation, when `isCardAuthorized` is true. -/
theorem first_match_of_authorized (s : AccessDatabase) (uid : Nat → Byte)
    (ha : (isCardAuthorized s uid).1 = true) :
    ∃ k, k < countOf (ensureInitialized s).EEPROM.data ∧
      RecordIs (ensureInitialized s).EEPROM.data k uid ∧
      ∀ k', k' < k → ¬ RecordIs (ensureInitialized s).EEPROM.data k' uid :=
  exists_first_match _ _ _ ((isCardAuthorized_iff s uid).1 ha)

theorem no_match_of_not_authorized (s : AccessDatabase) (uid : Nat → Byte)
    (ha : (isCardAuthorized s uid).1 = false) :
    ∀ k, k < countOf (ensureInitialized s).EEPROM.data →
      ¬ RecordIs (ensureInitialized s).EEPROM.data k uid := by
  intro k hk hr
  have := (isCardAuthorized_iff s uid).2 ⟨k, hk, hr⟩
  rw [ha] at this
  exact absurd this (by decide)

theorem addCard_durable (s : AccessDatabase) (uid : Nat → Byte)
    (h : s.EEPROM.data = s.EEPROM.flash) :
    (addCard s uid).2.EEPROM.data = (addCard s uid).2.EEPROM.flash := by
  have he := ensureInitialized_durable s h
  by_cases ha : (isCardAuthorized s uid).1 = true
  · rw [addCard_of_authorized s uid ha]
    show (isCardAuthorized s uid).2.EEPROM.data = (isCardAuthorized s uid).2.EEPROM.flash
    rw [isCardAuthorized_data, isCardAuthorized_flash, he]
  · have ha' : (isCardAuthorized s uid).1 = false := by simpa using ha
    by_cases hc : MAX_CARDS ≤ countOf (ensureInitialized s).EEPROM.data
    · rw [addCard_of_full s uid ha' hc]
      show (getCardCount (isCardAuthorized s uid).2).2.EEPROM.data
        = (getCardCount (isCardAuthorized s uid).2).2.EEPROM.flash
      rw [getCardCount_data, getCardCount_flash, ensureInitialized_isCardAuthorized,
        isCardAuthorized_data, isCardAuthorized_flash, he]
    · exact (addCard_added_flash s uid ha' (Nat.not_le.1 hc)).symm

theorem removeCard_durable (s : AccessDatabase) (uid : Nat → Byte)
    (h : s.EEPROM.data = s.EEPROM.flash) :
    (removeCard s uid).2.EEPROM.data = (removeCard s uid).2.EEPROM.flash := by
  have he := ensureInitialized_durable s h
  by_cases ha : (isCardAuthorized s uid).1 = true
  · obtain ⟨k, hk, hr, hmin⟩ := first_match_of_authorized s uid ha
    exact (removeCard_found s uid k hk hr hmin).2.2.symm
  · have ha' : (isCardAuthorized s uid).1 = false := by simpa using ha
    obtain ⟨-, h2, h3⟩ := removeCard_not_found s uid (no_match_of_not_authorized s uid ha')
    rw [h2, h3, he]

/-- C17: with the backend as a write buffer and a durable image, where a write
changes only the buffer and a commit copies the buffer onto the durable image,
every public operation that starts with the buffer equal to the durable image
ends with the buffer equal to the durable image. -/
theorem operations_leave_nothing_uncommitted (c : Call) (s : AccessDatabase)
    (h : s.EEPROM.data = s.EEPROM.flash) :
    (c.run s).EEPROM.data = (c.run s).EEPROM.flash := by
  have he := ensureInitialized_durable s h
  cases c with
  | begin => exact initializeEEPROM_durable s h
  | getCardCount => exact he
  | isCardAuthorized uid =>
    show (isCardAuthorized s uid).2.EEPROM.data = (isCardAuthorized s uid).2.EEPROM.flash
    rw [isCardAuthorized_data, isCardAuthorized_flash, he]
  | addCard uid => exact addCard_durable s uid h
  | removeCard uid => exact removeCard_durable s uid h
  | getCardByIndex index uid =>
    show (getCardByIndex s index uid).2.2.EEPROM.data
      = (getCardByIndex s index uid).2.2.EEPROM.flash
    rw [getCardByIndex_data, getCardByIndex_flash, he]
  | clearAllCards => rfl

/-- An insertion into an erased memory: the count byte 1 is in the durable
image when `addCard` returns. -/
theorem operations_leave_nothing_uncommitted_witness :
    (storeOf erasedImage).EEPROM.data = (storeOf erasedImage).EEPROM.flash ∧
    ((Call.addCard (uidOf 1 2 3 4)).run (storeOf erasedImage)).EEPROM.data
      = ((Call.addCard (uidOf 1 2 3 4)).run (storeOf erasedImage)).EEPROM.flash ∧
    ((Call.addCard (uidOf 1 2 3 4)).run (storeOf erasedImage)).EEPROM.flash 1 = 1 :=
  ⟨rfl,
    operations_leave_nothing_uncommitted (Call.addCard (uidOf 1 2 3 4)) (storeOf erasedImage)
      rfl,
    by decide⟩

/-! ## The cached flag -/

/-- Apart from the lazy initialisation it starts with, no call other than
`begin` changes the sentinel byte. -/
theorem run_keeps_sentinel_byte (c : Call) (t : AccessDatabase) (hc : c ≠ Call.begin) :
    (c.run t).EEPROM.data EEPROM_INIT_ADDR
      = (ensureInitialized t).EEPROM.data EEPROM_INIT_ADDR := by
  cases c with
  | begin => exact absurd rfl hc
  | getCardCount => rfl
  | isCardAuthorized uid =>
    show (isCardAuthorized t uid).2.EEPROM.data _ = _
    rw [isCardAuthorized_data]
  | addCard uid =>
    show (addCard t uid).2.EEPROM.data _ = _
    rcases addCard_cases t uid with ⟨-, -, hd⟩ | ⟨-, -, -, hd⟩ | ⟨ha, hlt, -, -, -⟩
    · rw [hd]
    · rw [hd]
    · rw [addCard_added_data t uid ha hlt, if_neg (by decide),
        if_neg (by simp [EEPROM_INIT_ADDR, EEPROM_CARDS_START])]
  | removeCard uid =>
    show (removeCard t uid).2.EEPROM.data _ = _
    by_cases ha : (isCardAuthorized t uid).1 = true
    · obtain ⟨k, hk, hr, hmin⟩ := first_match_of_authorized t uid ha
      rw [(removeCard_found t uid k hk hr hmin).2.1, if_neg (by decide),
        if_neg (by simp [EEPROM_INIT_ADDR, EEPROM_CARDS_START])]
    · have ha' : (isCardAuthorized t uid).1 = false := by simpa using ha
      rw [(removeCard_not_found t uid (no_match_of_not_authorized t uid ha')).2.1]
  | getCardByIndex index uid =>
    show (getCardByIndex t index uid).2.2.EEPROM.data _ = _
    rw [getCardByIndex_data]
  | clearAllCards =>
    show (clearAllCards t).EEPROM.data _ = _
    rw [clearAllCards_data, Function.update_noteq (by decide)]

/-- One call from a state whose flag, if set, is backed by the sentinel ends
with the sentinel set. -/
theorem run_sentinel_of_flag_sound (c : Call) (t : AccessDatabase)
    (h : t.initialized = true → Sentinel t.EEPROM.data) :
    Sentinel (c.run t).EEPROM.data := by
  by_cases hc : c = Call.begin
  · subst hc
    exact initializeEEPROM_sentinel t
  · rw [← run_ensure c t hc]
    apply (run_preserves c _ _).1
    unfold ensureInitialized
    cases hf : t.initialized
    · simpa using initializeEEPROM_sentinel t
    · simpa using h hf

theorem runCalls_sentinel_of_flag_sound (cs : List Call) (t : AccessDatabase)
    (h : t.initialized = true → Sentinel t.EEPROM.data) :
    ((runCalls cs t).initialized = true → Sentinel (runCalls cs t).EEPROM.data) ∧
    (cs ≠ [] → Sentinel (runCalls cs t).EEPROM.data) := by
  induction cs generalizing t with
  | nil => exact ⟨h, fun hne => absurd rfl hne⟩
  | cons c cs ih =>
    have h1 := run_sentinel_of_flag_sound c t h
    have h2 := ih (c.run t) (fun _ => h1)
    refine ⟨h2.1, fun _ => ?_⟩
    by_cases hcs : cs = []
    · subst hcs; exact h1
    · exact h2.2 hcs

/-! ## The addresses touched -/

theorem Touches.refl (e : EEPROMClass) (lo hi : Nat) : Touches e e lo hi :=
  ⟨[], rfl, fun _ h => absurd h (List.not_mem_nil _)⟩

theorem Touches.of_eq (e1 e2 : EEPROMClass) (lo hi : Nat) (h : e2.accessed = e1.accessed) :
    Touches e1 e2 lo hi :=
  ⟨[], by simpa using h, fun _ h => absurd h (List.not_mem_nil _)⟩

theorem Touches.trans (e1 e2 e3 : EEPROMClass) (lo hi : Nat)
    (h12 : Touches e1 e2 lo hi) (h23 : Touches e2 e3 lo hi) : Touches e1 e3 lo hi := by
  obtain ⟨l1, h1, b1⟩ := h12
  obtain ⟨l2, h2, b2⟩ := h23
  refine ⟨l2 ++ l1, by rw [h2, h1, List.append_assoc], ?_⟩
  intro a ha
  rcases List.mem_append.1 ha with h | h
  · exact b2 a h
  · exact b1 a h

theorem Touches.mono (e1 e2 : EEPROMClass) (lo hi lo2 hi2 : Nat)
    (h : Touches e1 e2 lo hi) (hlo : lo2 ≤ lo) (hhi : hi ≤ hi2) : Touches e1 e2 lo2 hi2 := by
  obtain ⟨l, h1, b⟩ := h
  exact ⟨l, h1, fun a ha => ⟨le_trans hlo (b a ha).1, lt_of_lt_of_le (b a ha).2 hhi⟩⟩

theorem Touches.read (e : EEPROMClass) (a lo hi : Nat) (h1 : lo ≤ a) (h2 : a < hi) :
    Touches e (e.read a).2 lo hi :=
  ⟨[a], rfl, fun b hb => by rw [List.mem_singleton] at hb; subst hb; exact ⟨h1, h2⟩⟩

theorem Touches.write (e : EEPROMClass) (a : Nat) (v : Byte) (lo hi : Nat) (h1 : lo ≤ a)
    (h2 : a < hi) : Touches e (e.write a v) lo hi :=
  ⟨[a], rfl, fun b hb => by rw [List.mem_singleton] at hb; subst hb; exact ⟨h1, h2⟩⟩

theorem Touches.commit (e : EEPROMClass) (lo hi : Nat) : Touches e e.commit lo hi :=
  Touches.of_eq _ _ _ _ rfl

namespace AccessDatabase

theorem matchLoop_touches (uid : Nat → Byte) (i fuel j : Nat) (e : EEPROMClass) :
    Touches e (matchLoop uid i fuel j e).2 (EEPROM_CARDS_START + i * UID_SIZE)
      (EEPROM_CARDS_START + i * UID_SIZE + UID_SIZE) := by
  induction fuel generalizing j e with
  | zero => exact Touches.refl _ _ _
  | succ n ih =>
    simp only [matchLoop]
    by_cases hj : j < UID_SIZE
    · have hr := Touches.read e (EEPROM_CARDS_START + i * UID_SIZE + j)
        (EEPROM_CARDS_START + i * UID_SIZE) (EEPROM_CARDS_START + i * UID_SIZE + UID_SIZE)
        (by omega) (by omega)
      simp only [hj, if_true]
      split_ifs
      · exact hr
      · exact Touches.trans _ _ _ _ _ hr (ih (j + 1) _)
    · simp only [hj, if_false]
      exact Touches.refl _ _ _

theorem scanLoop_touches (uid : Nat → Byte) (cc : Byte) (fuel i : Nat) (e : EEPROMClass) :
    Touches e (scanLoop uid cc fuel i e).2 EEPROM_CARDS_START
      (EEPROM_CARDS_START + cc.val * UID_SIZE) := by
  induction fuel generalizing i e with
  | zero => exact Touches.refl _ _ _
  | succ n ih =>
    simp only [scanLoop]
    by_cases hi : i < cc.val
    · have hm := Touches.mono _ _ _ _ EEPROM_CARDS_START
        (EEPROM_CARDS_START + cc.val * UID_SIZE)
        (matchLoop_touches uid i (UID_SIZE - 0) 0 e) (by omega)
        (by simp only [UID_SIZE, EEPROM_CARDS_START]; omega)
      simp only [hi, if_true]
      split_ifs
      · exact hm
      · exact Touches.trans _ _ _ _ _ hm (ih (i + 1) _)
    · simp only [hi, if_false]
      exact Touches.refl _ _ _

theorem findLoop_touches (uid : Nat → Byte) (cc : Byte) (fuel i : Nat) (ci : Int)
    (e : EEPROMClass) :
    Touches e (findLoop uid cc fuel i ci e).2 EEPROM_CARDS_START
      (EEPROM_CARDS_START + cc.val * UID_SIZE) := by
  induction fuel generalizing i e with
  | zero => exact Touches.refl _ _ _
  | succ n ih =>
    simp only [findLoop]
    by_cases hi : i < cc.val
    · have hm := Touches.mono _ _ _ _ EEPROM_CARDS_START
        (EEPROM_CARDS_START + cc.val * UID_SIZE)
        (matchLoop_touches uid i (UID_SIZE - 0) 0 e) (by omega)
        (by simp only [UID_SIZE, EEPROM_CARDS_START]; omega)
      simp only [hi, if_true]
      split_ifs
      · exact hm
      · exact Touches.trans _ _ _ _ _ hm (ih (i + 1) _)
    · simp only [hi, if_false]
      exact Touches.refl _ _ _

theorem writeUidLoop_touches (uid : Nat → Byte) (cc : Byte) (fuel j : Nat) (e : EEPROMClass) :
    Touches e (writeUidLoop uid cc fuel j e) (EEPROM_CARDS_START + cc.val * UID_SIZE)
      (EEPROM_CARDS_START + cc.val * UID_SIZE + UID_SIZE) := by
  induction fuel generalizing j e with
  | zero => exact Touches.refl _ _ _
  | succ n ih =>
    simp only [writeUidLoop]
    by_cases hj : j < UID_SIZE
    · simp only [hj, if_true]
      exact Touches.trans _ _ _ _ _
        (Touches.write e _ _ _ _ (by omega) (by omega)) (ih (j + 1) _)
    · simp only [hj, if_false]
      exact Touches.refl _ _ _

theorem copyLoop_touches (k fuel j : Nat) (e : EEPROMClass) :
    Touches e (copyLoop (k : Int) fuel j e) (EEPROM_CARDS_START + k * UID_SIZE)
      (EEPROM_CARDS_START + (k + 1) * UID_SIZE + UID_SIZE) := by
  induction fuel generalizing j e with
  | zero => exact Touches.refl _ _ _
  | succ n ih =>
    simp only [copyLoop]
    by_cases hj : j < UID_SIZE
    · have e1 : ((EEPROM_CARDS_START : Int) + ((k : Int) + 1) * UID_SIZE + j).toNat
          = EEPROM_CARDS_START + (k + 1) * UID_SIZE + j := by
        simp only [UID_SIZE, EEPROM_CARDS_START]; omega
      have e2 : ((EEPROM_CARDS_START : Int) + (k : Int) * UID_SIZE + j).toNat
          = EEPROM_CARDS_START + k * UID_SIZE + j := by
        simp only [UID_SIZE, EEPROM_CARDS_START]; omega
      simp only [hj, if_true, e1, e2]
      refine Touches.trans _ _ _ _ _ ?_ (ih (j + 1) _)
      refine Touches.trans _ _ _ _ _ (Touches.read e _ _ _ ?_ ?_) (Touches.write _ _ _ _ _ ?_ ?_)
      all_goals simp only [UID_SIZE, EEPROM_CARDS_START] at *; omega
    · simp only [hj, if_false]
      exact Touches.refl _ _ _

theorem shiftLoop_touches (cc : Byte) (fuel k : Nat) (e : EEPROMClass) :
    Touches e (shiftLoop cc fuel (k : Int) e) EEPROM_CARDS_START
      (EEPROM_CARDS_START + cc.val * UID_SIZE) := by
  induction fuel generalizing k e with
  | zero => exact Touches.refl _ _ _
  | succ n ih =>
    simp only [shiftLoop]
    by_cases hk : (k : Int) < (cc.val : Int) - 1
    · have hk' : k + 1 < cc.val := by omega
      have hc : ((k : Int) + 1) = ((k + 1 : Nat) : Int) := by push_cast; rfl
      simp only [hk, if_true]
      rw [hc]
      refine Touches.trans _ _ _ _ _ ?_ (ih (k + 1) _)
      exact Touches.mono _ _ _ _ _ _ (copyLoop_touches k (UID_SIZE - 0) 0 e) (by omega)
        (by simp only [UID_SIZE, EEPROM_CARDS_START]; omega)
    · simp only [hk, if_false]
      exact Touches.refl _ _ _

theorem readUidLoop_touches (index : Byte) (fuel j : Nat) (uid : Nat → Byte)
    (e : EEPROMClass) :
    Touches e (readUidLoop index fuel j uid e).2 (EEPROM_CARDS_START + index.val * UID_SIZE)
      (EEPROM_CARDS_START + index.val * UID_SIZE + UID_SIZE) := by
  induction fuel generalizing j uid e with
  | zero => exact Touches.refl _ _ _
  | succ n ih =>
    simp only [readUidLoop]
    by_cases hj : j < UID_SIZE
    · simp only [hj, if_true]
      exact Touches.trans _ _ _ _ _
        (Touches.read e _ _ _ (by omega) (by omega)) (ih (j + 1) _ _)
    · simp only [hj, if_false]
      exact Touches.refl _ _ _

end AccessDatabase

theorem initializeEEPROM_touches (s : AccessDatabase) :
    Touches s.EEPROM (initializeEEPROM s).EEPROM 0 EEPROM_CARDS_START := by
  have hr := Touches.read s.EEPROM EEPROM_INIT_ADDR 0 EEPROM_CARDS_START (Nat.zero_le _)
    (by decide)
  simp only [initializeEEPROM]
  split_ifs
  · refine Touches.trans _ _ _ _ _ hr ?_
    refine Touches.trans _ _ _ _ _
      (Touches.write _ EEPROM_INIT_ADDR 0xAA 0 EEPROM_CARDS_START (Nat.zero_le _) (by decide)) ?_
    exact Touches.trans _ _ _ _ _
      (Touches.write _ EEPROM_COUNT_ADDR 0 0 EEPROM_CARDS_START (Nat.zero_le _) (by decide))
      (Touches.commit _ _ _)
  · exact hr

theorem ensureInitialized_touches (s : AccessDatabase) :
    Touches s.EEPROM (ensureInitialized s).EEPROM 0 EEPROM_CARDS_START := by
  unfold ensureInitialized
  split_ifs
  · exact initializeEEPROM_touches s
  · exact Touches.refl _ _ _

theorem getCardCount_touches (s : AccessDatabase) :
    Touches (ensureInitialized s).EEPROM (getCardCount s).2.EEPROM 1 EEPROM_CARDS_START :=
  Touches.read _ EEPROM_COUNT_ADDR 1 EEPROM_CARDS_START (by decide) (by decide)

theorem isCardAuthorized_touches (s : AccessDatabase) (uid : Nat → Byte) :
    Touches (ensureInitialized s).EEPROM (isCardAuthorized s uid).2.EEPROM 1
      (EEPROM_CARDS_START + countOf (ensureInitialized s).EEPROM.data * UID_SIZE) := by
  simp only [isCardAuthorized, getCardCount_ensure]
  refine Touches.trans _ _ _ _ _
    (Touches.mono _ _ _ _ _ _ (getCardCount_touches s) (le_refl _) (by omega)) ?_
  have h := scanLoop_touches uid (getCardCount s).1 ((getCardCount s).1.val - 0) 0
    (getCardCount s).2.EEPROM
  rw [getCardCount_fst] at h ⊢
  exact Touches.mono _ _ _ _ _ _ h (by decide) (le_refl _)

theorem addCard_touches (s : AccessDatabase) (uid : Nat → Byte) :
    Touches (ensureInitialized s).EEPROM (addCard s uid).2.EEPROM 1
      (EEPROM_CARDS_START
        + max (countOf (ensureInitialized s).EEPROM.data) MAX_CARDS * UID_SIZE) := by
  have hle : countOf (ensureInitialized s).EEPROM.data
      ≤ max (countOf (ensureInitialized s).EEPROM.data) MAX_CARDS := le_max_left _ _
  have ha := Touches.mono _ _ _ _ 1
    (EEPROM_CARDS_START
      + max (countOf (ensureInitialized s).EEPROM.data) MAX_CARDS * UID_SIZE)
    (isCardAuthorized_touches s uid) (le_refl _)
    (by simp only [UID_SIZE]; omega)
  have hg := getCardCount_touches (isCardAuthorized s uid).2
  rw [ensureInitialized_isCardAuthorized] at hg
  have hag := Touches.trans _ _ _ _ _ ha
    (Touches.mono _ _ _ _ 1
      (EEPROM_CARDS_START
        + max (countOf (ensureInitialized s).EEPROM.data) MAX_CARDS * UID_SIZE) hg (le_refl _)
      (by omega))
  have e1 : (getCardCount (isCardAuthorized s uid).2).1
      = (ensureInitialized s).EEPROM.data EEPROM_COUNT_ADDR := by
    rw [getCardCount_fst, ensureInitialized_isCardAuthorized, isCardAuthorized_data]
  simp only [addCard, isCardAuthorized_ensure]
  split_ifs with h1 h2
  · exact ha
  · exact hag
  · have h2' : countOf (ensureInitialized s).EEPROM.data < MAX_CARDS := by
      rw [e1] at h2; exact Nat.not_le.1 h2
    have hmax : max (countOf (ensureInitialized s).EEPROM.data) MAX_CARDS = MAX_CARDS :=
      max_eq_right (le_of_lt h2')
    have h20 : countOf (ensureInitialized s).EEPROM.data < 20 := h2'
    refine Touches.trans _ _ _ _ _ hag ?_
    refine Touches.trans _ _ _ _ _ ?_
      (Touches.trans _ _ _ _ _
        (Touches.write _ EEPROM_COUNT_ADDR _ _ _ (by decide)
          (by simp only [EEPROM_COUNT_ADDR, EEPROM_CARDS_START]; omega))
        (Touches.commit _ _ _))
    have hw := writeUidLoop_touches uid (getCardCount (isCardAuthorized s uid).2).1
      (UID_SIZE - 0) 0 (getCardCount (isCardAuthorized s uid).2).2.EEPROM
    rw [e1] at hw ⊢
    refine Touches.mono _ _ _ _ _ _ hw (by simp only [EEPROM_CARDS_START]; omega) ?_
    rw [hmax]
    unfold countOf at h20
    simp only [UID_SIZE, MAX_CARDS]
    omega

theorem removeCard_touches (s : AccessDatabase) (uid : Nat → Byte) :
    Touches (ensureInitialized s).EEPROM (removeCard s uid).2.EEPROM 1
      (EEPROM_CARDS_START + countOf (ensureInitialized s).EEPROM.data * UID_SIZE) := by
  have hg := Touches.mono _ _ _ _ 1
    (EEPROM_CARDS_START + countOf (ensureInitialized s).EEPROM.data * UID_SIZE)
    (getCardCount_touches s) (le_refl _) (by omega)
  have hf := findLoop_touches uid (getCardCount s).1 ((getCardCount s).1.val - 0) 0 (-1)
    (getCardCount s).2.EEPROM
  have hgf := Touches.trans _ _ _ _ _ hg
    (Touches.mono _ _ _ _ 1
      (EEPROM_CARDS_START + countOf (ensureInitialized s).EEPROM.data * UID_SIZE) hf
      (by decide) (by rw [getCardCount_fst]; exact le_refl _))
  have hs := findLoop_spec uid (getCardCount s).1 ((getCardCount s).1.val - 0) 0
    (getCardCount s).2.EEPROM (by simp)
  simp only [removeCard, getCardCount_ensure]
  rcases hs with ⟨h1, -⟩ | ⟨k, h1, -, h2, -, -⟩
  · simp only [h1, if_true]
    exact hgf
  · have hne : ((k : Nat) : Int) ≠ -1 := by omega
    have hpos : 0 < countOf (ensureInitialized s).EEPROM.data := by
      rw [getCardCount_fst] at h2
      exact lt_of_le_of_lt (Nat.zero_le _) h2
    simp only [h1, hne, if_false]
    refine Touches.trans _ _ _ _ _ hgf ?_
    refine Touches.trans _ _ _ _ _ ?_
      (Touches.trans _ _ _ _ _
        (Touches.write _ EEPROM_COUNT_ADDR _ _ _ (by decide)
          (by simp only [EEPROM_COUNT_ADDR, EEPROM_CARDS_START, UID_SIZE]; omega))
        (Touches.commit _ _ _))
    have hsh := shiftLoop_touches (getCardCount s).1
      (((getCardCount s).1.val : Int) - 1 - (k : Int)).toNat k
      (findLoop uid (getCardCount s).1 ((getCardCount s).1.val - 0) 0 (-1)
        (getCardCount s).2.EEPROM).2
    exact Touches.mono _ _ _ _ _ _ hsh (by decide) (by rw [getCardCount_fst]; exact le_refl _)

theorem getCardByIndex_touches (s : AccessDatabase) (index : Byte) (uid : Nat → Byte) :
    Touches (ensureInitialized s).EEPROM (getCardByIndex s index uid).2.2.EEPROM 1
      (EEPROM_CARDS_START + countOf (ensureInitialized s).EEPROM.data * UID_SIZE) := by
  have hg := Touches.mono _ _ _ _ 1
    (EEPROM_CARDS_START + countOf (ensureInitialized s).EEPROM.data * UID_SIZE)
    (getCardCount_touches s) (le_refl _) (by omega)
  simp only [getCardByIndex, getCardCount_ensure]
  split_ifs with h
  · exact hg
  · refine Touches.trans _ _ _ _ _ hg ?_
    have hlt : index.val < countOf (ensureInitialized s).EEPROM.data := by
      rw [getCardCount_fst] at h; exact Nat.not_le.1 h
    refine Touches.mono _ _ _ _ _ _
      (readUidLoop_touches index (UID_SIZE - 0) 0 uid (getCardCount s).2.EEPROM)
      (by simp only [EEPROM_CARDS_START]; omega)
      (by simp only [UID_SIZE, EEPROM_CARDS_START]; omega)

theorem clearAllCards_touches (s : AccessDatabase) :
    Touches (ensureInitialized s).EEPROM (clearAllCards s).EEPROM 1 EEPROM_CARDS_START :=
  Touches.trans _ _ _ _ _
    (Touches.write _ EEPROM_COUNT_ADDR 0 1 EEPROM_CARDS_START (by decide) (by decide))
    (Touches.commit _ _ _)

/-- Every call other than `begin`, after its lazy initialisation, touches only
the count byte and record bytes below the larger of the count and
`MAX_CARDS`. -/
theorem run_touches_after_init (c : Call) (s : AccessDatabase) (hc : c ≠ Call.begin) :
    Touches (ensureInitialized s).EEPROM (c.run s).EEPROM 1
      (EEPROM_CARDS_START
        + max (countOf (ensureInitialized s).EEPROM.data) MAX_CARDS * UID_SIZE) := by
  have hle : countOf (ensureInitialized s).EEPROM.data
      ≤ max (countOf (ensureInitialized s).EEPROM.data) MAX_CARDS := le_max_left _ _
  have hb : EEPROM_CARDS_START + countOf (ensureInitialized s).EEPROM.data * UID_SIZE
      ≤ EEPROM_CARDS_START
        + max (countOf (ensureInitialized s).EEPROM.data) MAX_CARDS * UID_SIZE := by
    simp only [UID_SIZE]; omega
  cases c with
  | begin => exact absurd rfl hc
  | getCardCount =>
    exact Touches.mono _ _ _ _ _ _ (getCardCount_touches s) (le_refl _) (by omega)
  | isCardAuthorized uid =>
    exact Touches.mono _ _ _ _ _ _ (isCardAuthorized_touches s uid) (le_refl _) hb
  | addCard uid => exact addCard_touches s uid
  | removeCard uid =>
    exact Touches.mono _ _ _ _ _ _ (removeCard_touches s uid) (le_refl _) hb
  | getCardByIndex index uid =>
    exact Touches.mono _ _ _ _ _ _ (getCardByIndex_touches s index uid) (le_refl _) hb
  | clearAllCards =>
    exact Touches.mono _ _ _ _ _ _ (clearAllCards_touches s) (le_refl _) (by omega)

/-- Every call touches only addresses below the end of the slot range that the
larger of the count and `MAX_CARDS` gives. -/
theorem run_touches (c : Call) (s : AccessDatabase) :
    Touches s.EEPROM (c.run s).EEPROM 0
      (EEPROM_CARDS_START
        + max (countOf (ensureInitialized s).EEPROM.data) MAX_CARDS * UID_SIZE) := by
  by_cases hc : c = Call.begin
  · subst hc
    exact Touches.mono _ _ _ _ _ _ (initializeEEPROM_touches s) (le_refl _) (by omega)
  · exact Touches.trans _ _ _ _ _
      (Touches.mono _ _ _ _ _ _ (ensureInitialized_touches s) (le_refl _) (by omega))
      (Touches.mono _ _ _ _ _ _ (run_touches_after_init c s hc) (Nat.zero_le _) (le_refl _))

/-- The lazy initialisation never raises the count byte. -/
theorem countOf_ensureInitialized_le (s : AccessDatabase) :
    countOf (ensureInitialized s).EEPROM.data ≤ countOf s.EEPROM.data := by
  unfold ensureInitialized
  split_ifs
  · by_cases hs : Sentinel s.EEPROM.data
    · rw [initializeEEPROM_data_of_sentinel s hs]
    · rw [initializeEEPROM_data_of_not_sentinel s hs]
      simp [countOf]
  · exact le_refl _

/-- C18: for every state, whatever its count byte, and every call with any
arguments, every address the call reads or writes is below `EEPROM_SIZE`; and
when the count byte is at most `MAX_CARDS` every such address is below
`2 + 4 * 20`. Addresses are computed without wraparound, as in `int`. -/
theorem accesses_in_bounds (c : Call) (s : AccessDatabase) :
    ∃ l, (c.run s).EEPROM.accessed = l ++ s.EEPROM.accessed ∧
      (∀ a, a ∈ l → a < EEPROM_SIZE) ∧
      (countOf s.EEPROM.data ≤ MAX_CARDS → ∀ a, a ∈ l → a < 2 + 4 * 20) := by
  obtain ⟨l, hl, hb⟩ := run_touches c s
  have h255 : countOf (ensureInitialized s).EEPROM.data < 256 :=
    ((ensureInitialized s).EEPROM.data EEPROM_COUNT_ADDR).isLt
  have hle := countOf_ensureInitialized_le s
  refine ⟨l, hl, ?_, ?_⟩
  · intro a ha
    have := (hb a ha).2
    simp only [UID_SIZE, EEPROM_CARDS_START, MAX_CARDS, EEPROM_SIZE] at *
    omega
  · intro hc a ha
    have := (hb a ha).2
    simp only [UID_SIZE, EEPROM_CARDS_START, MAX_CARDS] at *
    omega

/-- Removing the middle record of the store of three records touches only
addresses below 82. -/
theorem accesses_in_bounds_witness :
    countOf (storeOf threeImage).EEPROM.data ≤ MAX_CARDS ∧
    ∀ a, a ∈ ((Call.removeCard (uidOf 5 6 7 8)).run (storeOf threeImage)).EEPROM.accessed →
      a < 2 + 4 * 20 :=
  ⟨by decide, by
    obtain ⟨l, hl, -, h2⟩ :=
      accesses_in_bounds (Call.removeCard (uidOf 5 6 7 8)) (storeOf threeImage)
    intro a ha
    rw [hl] at ha
    exact h2 (by decide) a (by simpa [storeOf] using ha)⟩

/-! ## The cached flag, concluded -/

/-- C20: from the flag unset and any memory image, in every state reached by a
finite sequence of public operations, a set `initialized` flag means the
sentinel byte is `0xAA`; after at least one operation the sentinel is `0xAA`;
and nothing but `initializeEEPROM` writes offset 0: the sentinel byte after any
operation other than `begin` is the one its lazy `initializeEEPROM` left (its
own when the flag is set), the operation touches no address 0 after that lazy
step, and `begin` is `initializeEEPROM` itself. -/
theorem initialized_flag_sound (s : AccessDatabase) (cs : List Call)
    (h0 : s.initialized = false) :
    ((runCalls cs s).initialized = true →
      (runCalls cs s).EEPROM.data EEPROM_INIT_ADDR = 0xAA) ∧
    (cs ≠ [] → (runCalls cs s).EEPROM.data EEPROM_INIT_ADDR = 0xAA) ∧
    (∀ (c : Call) (t : AccessDatabase), c ≠ Call.begin →
      (c.run t).EEPROM.data EEPROM_INIT_ADDR
        = (ensureInitialized t).EEPROM.data EEPROM_INIT_ADDR) ∧
    (∀ t : AccessDatabase, t.initialized = true →
      (ensureInitialized t).EEPROM.data EEPROM_INIT_ADDR = t.EEPROM.data EEPROM_INIT_ADDR) ∧
    (∀ (c : Call) (t : AccessDatabase), c ≠ Call.begin →
      ∃ l, (c.run t).EEPROM.accessed = l ++ (ensureInitialized t).EEPROM.accessed ∧
        ∀ a, a ∈ l → a ≠ EEPROM_INIT_ADDR) ∧
    (∀ t : AccessDatabase, Call.begin.run t = initializeEEPROM t) := by
  have h := runCalls_sentinel_of_flag_sound cs s (fun hf => by rw [h0] at hf; cases hf)
  refine ⟨h.1, h.2, run_keeps_sentinel_byte, ?_, ?_, fun _ => rfl⟩
  · intro t ht
    rw [ensureInitialized_of_initialized t ht]
  · intro c t hc
    obtain ⟨l, hl, hb⟩ := run_touches_after_init c t hc
    refine ⟨l, hl, fun a ha => ?_⟩
    have := (hb a ha).1
    simp only [EEPROM_INIT_ADDR]
    omega

/-- A run over an erased memory ends with the flag set and the sentinel at
`0xAA`. -/
theorem initialized_flag_sound_witness :
    (storeOf erasedImage).initialized = false ∧
    (storeOf erasedImage).EEPROM.data EEPROM_INIT_ADDR = 0xFF ∧
    (runCalls sampleCalls (storeOf erasedImage)).initialized = true ∧
    (runCalls sampleCalls (storeOf erasedImage)).EEPROM.data EEPROM_INIT_ADDR = 0xAA :=
  ⟨rfl, by decide, by decide,
    (initialized_flag_sound (storeOf erasedImage) sampleCalls rfl).1 (by decide)⟩

